import Mathlib

/-!
Verification of the prompt/response pipeline of the exam-preparation study
tool (`src/main.py`).

The development shallowly embeds:

* a JSON value type together with an executable parser and serializer that
  model the Python `json` standard-library functions `json.loads` and
  `json.dumps` as the source uses them (the model is restricted to integer
  numerals — floating-point literals are outside the model and are treated
  as unparseable — and to strings without lone surrogate escapes, which a
  Lean `Char` cannot represent);
* the brace-scanning response extractor `ExamQuestionGenerator._parse_json`;
* the five prompt builders, the session state (`question_bank`,
  `quiz_history`) and the per-operation state updates of
  `ExamQuestionGenerator`;
* the interactive session loop of `main` as a sequence of operations.

The external `ollama.chat` collaborator is modelled by passing the raw model
reply text into each operation as an explicit argument.
-/

/-! ## Characters -/

/-- Decimal digit test, `'0' ≤ c ≤ '9'` expressed on code points. -/
def isDigit (c : Char) : Bool := 48 ≤ c.toNat && c.toNat ≤ 57

/-- JSON whitespace (space, tab, newline, carriage return). -/
def isWs (c : Char) : Bool :=
  c.toNat = 32 || c.toNat = 9 || c.toNat = 10 || c.toNat = 13

/-- Character equality is equality of code points. -/
theorem char_eq_iff_toNat {c d : Char} : c = d ↔ c.toNat = d.toNat := by
  constructor
  · intro h; rw [h]
  · intro h
    exact Char.ext (UInt32.ext h)

theorem isWs_false_of_isDigit {c : Char} (h : isDigit c = true) : isWs c = false := by
  simp only [isDigit, Bool.and_eq_true, decide_eq_true_eq] at h
  simp only [isWs, Bool.or_eq_false_iff, decide_eq_false_iff_not]
  omega

/-! ## JSON values

The shape of values produced by `json.loads`: objects are association lists
of string keys (duplicate keys are kept in order; lookups take the last
binding, as a Python `dict` built from JSON text would). -/

inductive Json : Type where
  | null : Json
  | bool : Bool → Json
  | num : Int → Json
  | str : String → Json
  | arr : List Json → Json
  | obj : List (String × Json) → Json
deriving Repr

/-! ## Serializer

Model of `json.dumps` with the default separators `", "` and `": "` and the
default `ensure_ascii=True` string encoder: `\"` and `\\`, the shorthands
`\b`, `\t`, `\n`, `\f`, `\r`, `\u00XX` for the other control characters,
literal output only for printable ASCII (`0x20`-`0x7E`), `\uXXXX` for every
other character up to `0xFFFF`, and a `\uXXXX\uXXXX` surrogate pair above
that. -/

/-- Decimal digit character for `n < 10`. -/
def digitChar (n : Nat) : Char := Char.ofNat (48 + n)

/-- Lowercase hexadecimal digit character for `n < 16`. -/
def hexDigitChar (n : Nat) : Char :=
  if n < 10 then Char.ofNat (48 + n) else Char.ofNat (87 + n)

/-- Accumulator loop producing decimal digits; the fuel only bounds the
number of divisions and any fuel above the digit count gives the same
result. -/
def natCharsAux : Nat → Nat → List Char → List Char
  | 0, _, acc => acc
  | fuel + 1, n, acc =>
    if n < 10 then digitChar n :: acc
    else natCharsAux fuel (n / 10) (digitChar (n % 10) :: acc)

/-- Decimal digit characters of a natural number, most significant first. -/
def natChars (n : Nat) : List Char := natCharsAux (n + 1) n []

theorem natCharsAux_irrel (n : Nat) :
    ∀ f acc, n < f → natCharsAux f n acc = natChars n ++ acc := by
  induction n using Nat.strong_induction_on with
  | _ n ih =>
    intro f acc hf
    match f with
    | f' + 1 =>
      rw [natCharsAux]
      by_cases h10 : n < 10
      · rw [if_pos h10, natChars, natCharsAux, if_pos h10]
        rfl
      · have hdiv : n / 10 < n := Nat.div_lt_self (by omega) (by omega)
        rw [if_neg h10]
        rw [ih (n / 10) hdiv f' _ (by omega)]
        conv_rhs => rw [natChars, natCharsAux, if_neg h10]
        rw [ih (n / 10) hdiv n _ hdiv]
        simp [List.append_assoc]

/-- Recursion equation of `natChars`. -/
theorem natChars_eq (n : Nat) :
    natChars n =
      if n < 10 then [digitChar n]
      else natChars (n / 10) ++ [digitChar (n % 10)] := by
  by_cases h : n < 10
  · rw [natChars, natCharsAux, if_pos h, if_pos h]
  · have hdiv : n / 10 < n := Nat.div_lt_self (by omega) (by omega)
    rw [natChars, natCharsAux, if_neg h, if_neg h]
    rw [natCharsAux_irrel (n / 10) n _ hdiv]

/-- Decimal rendering of an integer, as Python `str(int)` renders it. -/
def intChars (n : Int) : List Char :=
  if n < 0 then '-' :: natChars n.natAbs else natChars n.toNat

/-- A `\uXXXX` escape with four lowercase hexadecimal digits. -/
def hexEsc (n : Nat) : List Char :=
  ['\\', 'u', hexDigitChar (n / 4096 % 16), hexDigitChar (n / 256 % 16),
   hexDigitChar (n / 16 % 16), hexDigitChar (n % 16)]

/-- JSON string escape for one character, as Python's default
`ensure_ascii=True` encoder renders it: only printable ASCII other than the
quote and the backslash is emitted literally. -/
def escapeChar (c : Char) : List Char :=
  if c = '"' then ['\\', '"']
  else if c = '\\' then ['\\', '\\']
  else if c.toNat = 8 then ['\\', 'b']
  else if c.toNat = 9 then ['\\', 't']
  else if c.toNat = 10 then ['\\', 'n']
  else if c.toNat = 12 then ['\\', 'f']
  else if c.toNat = 13 then ['\\', 'r']
  else if c.toNat < 32 then hexEsc c.toNat
  else if c.toNat < 127 then [c]
  else if c.toNat < 65536 then hexEsc c.toNat
  else
    hexEsc (55296 + (c.toNat - 65536) / 1024) ++ hexEsc (56320 + (c.toNat - 65536) % 1024)

/-- JSON string escape for a character sequence. -/
def escChars : List Char → List Char
  | [] => []
  | c :: cs => escapeChar c ++ escChars cs

mutual

/-- Characters of the JSON serialization of a value (model of `json.dumps`). -/
def serChars : Json → List Char
  | Json.null => ['n', 'u', 'l', 'l']
  | Json.bool true => ['t', 'r', 'u', 'e']
  | Json.bool false => ['f', 'a', 'l', 's', 'e']
  | Json.num n => intChars n
  | Json.str s => '"' :: (escChars s.data ++ ['"'])
  | Json.arr [] => ['[', ']']
  | Json.arr (x :: xs) => '[' :: (serChars x ++ serArrRest xs)
  | Json.obj [] => ['{', '}']
  | Json.obj ((k, v) :: kvs) =>
      '{' :: ('"' :: (escChars k.data ++ ('"' :: ':' :: ' ' :: (serChars v ++ serObjRest kvs))))

/-- Serialization of the remaining array elements, including the closing bracket. -/
def serArrRest : List Json → List Char
  | [] => [']']
  | x :: xs => ',' :: ' ' :: (serChars x ++ serArrRest xs)

/-- Serialization of the remaining object members, including the closing brace. -/
def serObjRest : List (String × Json) → List Char
  | [] => ['}']
  | (k, v) :: kvs =>
      ',' :: ' ' :: ('"' :: (escChars k.data ++ ('"' :: ':' :: ' ' :: (serChars v ++ serObjRest kvs))))

end

/-- The serialization of a JSON value as a string (model of `json.dumps`). -/
def dumpsJson (j : Json) : String := String.mk (serChars j)

/-! ## Parser

Fuel-indexed recursive-descent parser modelling `json.loads` (restricted to
integer numerals). The fuel only bounds recursion depth; the top-level entry
point supplies more than enough fuel for any input of the given length. -/

/-- Skip leading JSON whitespace. -/
def skipWs : List Char → List Char
  | [] => []
  | c :: cs => if isWs c then skipWs cs else c :: cs

/-- Value of a hexadecimal digit character. -/
def hexVal (c : Char) : Option Nat :=
  if 48 ≤ c.toNat ∧ c.toNat ≤ 57 then some (c.toNat - 48)
  else if 97 ≤ c.toNat ∧ c.toNat ≤ 102 then some (c.toNat - 87)
  else if 65 ≤ c.toNat ∧ c.toNat ≤ 70 then some (c.toNat - 55)
  else none

/-- Decode a one-character escape, as the json scanner's backslash table. -/
def escDecode (e : Char) : Option Char :=
  if e = '"' then some '"'
  else if e = '\\' then some '\\'
  else if e = '/' then some '/'
  else if e = 'b' then some (Char.ofNat 8)
  else if e = 'f' then some (Char.ofNat 12)
  else if e = 'n' then some '\n'
  else if e = 'r' then some (Char.ofNat 13)
  else if e = 't' then some '\t'
  else none

/-- Value of four hexadecimal digit characters. -/
def hex4 (h₁ h₂ h₃ h₄ : Char) : Option Nat :=
  match hexVal h₁, hexVal h₂, hexVal h₃, hexVal h₄ with
  | some a, some b, some c, some d => some (((a * 16 + b) * 16 + c) * 16 + d)
  | _, _, _, _ => none

/-- After a high surrogate `n`, read the low-surrogate escape that must
follow and combine the pair into one character with its remaining input. -/
def lowSurrogate (n : Nat) : List Char → Option (Char × List Char)
  | '\\' :: 'u' :: g₁ :: g₂ :: g₃ :: g₄ :: cs₃ =>
      match hex4 g₁ g₂ g₃ g₄ with
      | some m =>
          if 56320 ≤ m ∧ m < 57344 then
            some (Char.ofNat (65536 + (n - 55296) * 1024 + (m - 56320)), cs₃)
          else none
      | none => none
  | _ => none

/-- Body of a JSON string literal after the opening quote: returns the
decoded characters and the input after the closing quote. A `\uXXXX` escape
yields the character directly when it is not a surrogate, and a high
surrogate is combined with the low-surrogate escape that must follow (a
lone surrogate, which a Lean `Char` cannot represent, is a parse failure).
The fuel only bounds the number of steps; every step consumes at least one
character, so the `parseStr` entry point below never runs out. -/
def parseStrBody : Nat → List Char → Option (List Char × List Char)
  | 0, _ => none
  | _ + 1, [] => none
  | fuel + 1, c :: cs =>
    if c = '"' then some ([], cs)
    else if c = '\\' then
      match cs with
      | [] => none
      | e :: cs₁ =>
        if e = 'u' then
          match cs₁ with
          | h₁ :: h₂ :: h₃ :: h₄ :: cs₂ =>
            match hex4 h₁ h₂ h₃ h₄ with
            | some n =>
              if n < 55296 ∨ 57344 ≤ n then
                match parseStrBody fuel cs₂ with
                | some (s, rest) => some (Char.ofNat n :: s, rest)
                | none => none
              else if n < 56320 then
                match lowSurrogate n cs₂ with
                | some (ch, cs₃) =>
                  match parseStrBody fuel cs₃ with
                  | some (s, rest) => some (ch :: s, rest)
                  | none => none
                | none => none
              else none
            | none => none
          | _ => none
        else
          match escDecode e with
          | some d =>
            match parseStrBody fuel cs₁ with
            | some (s, rest) => some (d :: s, rest)
            | none => none
          | none => none
    else if c.toNat < 32 then none
    else
      match parseStrBody fuel cs with
      | some (s, rest) => some (c :: s, rest)
      | none => none

/-- String-literal body parser with fuel sufficient for its whole input. -/
def parseStr (cs : List Char) : Option (List Char × List Char) :=
  parseStrBody (cs.length + 1) cs

/-- Split the longest leading run of decimal digits from the input. -/
def takeDigits : List Char → List Char × List Char
  | [] => ([], [])
  | c :: cs =>
    if isDigit c then
      let (ds, rest) := takeDigits cs
      (c :: ds, rest)
    else ([], c :: cs)

/-- Value of a digit list under a left accumulator. -/
def digitsToNat (acc : Nat) : List Char → Nat
  | [] => acc
  | c :: cs => digitsToNat (acc * 10 + (c.toNat - 48)) cs

/-- Parse an unsigned JSON integer numeral (no leading zeros; a following
`.`, `e` or `E` would make a float literal, which is outside the model and
rejected). -/
def parseNat (cs : List Char) : Option (Nat × List Char) :=
  match takeDigits cs with
  | (ds, rest) =>
    if ds = [] then none
    else if 1 < ds.length ∧ ds.head? = some '0' then none
    else
      match rest with
      | [] => some (digitsToNat 0 ds, rest)
      | c :: _ =>
        if c = '.' ∨ c = 'e' ∨ c = 'E' then none else some (digitsToNat 0 ds, rest)

/-- Parse a signed JSON integer numeral. -/
def parseNumber (cs : List Char) : Option (Int × List Char) :=
  match cs with
  | [] => none
  | c :: cs₁ =>
    if c = '-' then
      match parseNat cs₁ with
      | some (n, rest) => some (-(n : Int), rest)
      | none => none
    else
      match parseNat (c :: cs₁) with
      | some (n, rest) => some ((n : Int), rest)
      | none => none

mutual

/-- Parse one JSON value, returning it with the unconsumed input. -/
def parseVal : Nat → List Char → Option (Json × List Char)
  | 0, _ => none
  | fuel + 1, cs =>
    match skipWs cs with
    | [] => none
    | c :: cs₁ =>
      if c = '{' then
        match skipWs cs₁ with
        | [] => none
        | d :: cs₂ =>
          if d = '}' then some (Json.obj [], cs₂)
          else if d = '"' then
            match parseStr cs₂ with
            | some (k, cs₃) =>
              match skipWs cs₃ with
              | [] => none
              | e :: cs₄ =>
                if e = ':' then
                  match parseVal fuel cs₄ with
                  | some (v, cs₅) =>
                    match parseObjRest fuel cs₅ with
                    | some (kvs, rest) => some (Json.obj ((String.mk k, v) :: kvs), rest)
                    | none => none
                  | none => none
                else none
            | none => none
          else none
      else if c = '[' then
        match skipWs cs₁ with
        | [] => none
        | d :: cs₂ =>
          if d = ']' then some (Json.arr [], cs₂)
          else
            match parseVal fuel (d :: cs₂) with
            | some (v, cs₃) =>
              match parseArrRest fuel cs₃ with
              | some (vs, rest) => some (Json.arr (v :: vs), rest)
              | none => none
            | none => none
      else if c = '"' then
        match parseStr cs₁ with
        | some (s, rest) => some (Json.str (String.mk s), rest)
        | none => none
      else if c = '-' ∨ isDigit c then
        match parseNumber (c :: cs₁) with
        | some (n, rest) => some (Json.num n, rest)
        | none => none
      else
        match c :: cs₁ with
        | 't' :: 'r' :: 'u' :: 'e' :: rest => some (Json.bool true, rest)
        | 'f' :: 'a' :: 'l' :: 's' :: 'e' :: rest => some (Json.bool false, rest)
        | 'n' :: 'u' :: 'l' :: 'l' :: rest => some (Json.null, rest)
        | _ => none

/-- Parse the remaining members of an object, including the closing brace. -/
def parseObjRest : Nat → List Char → Option (List (String × Json) × List Char)
  | 0, _ => none
  | fuel + 1, cs =>
    match skipWs cs with
    | [] => none
    | c :: cs₁ =>
      if c = '}' then some ([], cs₁)
      else if c = ',' then
        match skipWs cs₁ with
        | [] => none
        | d :: cs₂ =>
          if d = '"' then
            match parseStr cs₂ with
            | some (k, cs₃) =>
              match skipWs cs₃ with
              | [] => none
              | e :: cs₄ =>
                if e = ':' then
                  match parseVal fuel cs₄ with
                  | some (v, cs₅) =>
                    match parseObjRest fuel cs₅ with
                    | some (kvs, rest) => some ((String.mk k, v) :: kvs, rest)
                    | none => none
                  | none => none
                else none
            | none => none
          else none
      else none

/-- Parse the remaining elements of an array, including the closing bracket. -/
def parseArrRest : Nat → List Char → Option (List Json × List Char)
  | 0, _ => none
  | fuel + 1, cs =>
    match skipWs cs with
    | [] => none
    | c :: cs₁ =>
      if c = ']' then some ([], cs₁)
      else if c = ',' then
        match parseVal fuel cs₁ with
        | some (v, cs₂) =>
          match parseArrRest fuel cs₂ with
          | some (vs, rest) => some (v :: vs, rest)
          | none => none
        | none => none
      else none

end

/-- Model of `json.loads`: parse a whole string as one JSON value, allowing
surrounding whitespace and rejecting trailing garbage. -/
def parseJson (s : String) : Option Json :=
  match parseVal (2 * s.data.length + 2) s.data with
  | some (j, rest) => if skipWs rest = [] then some j else none
  | none => none

/-! ## The response extractor (`ExamQuestionGenerator._parse_json`) -/

/-- Index of the first occurrence of a character, as `str.find` returns it. -/
def pyFindIdx (cs : List Char) (c : Char) : Option Nat :=
  match cs with
  | [] => none
  | x :: xs => if x = c then some 0 else (pyFindIdx xs c).map (· + 1)

/-- Index of the last occurrence of a character, as `str.rfind` returns it. -/
def pyRfindIdx (cs : List Char) (c : Char) : Option Nat :=
  match cs with
  | [] => none
  | x :: xs =>
    match pyRfindIdx xs c with
    | some i => some (i + 1)
    | none => if x = c then some 0 else none

/-- Python `str.find`: first index of the character, or `-1`. -/
def pyFind (cs : List Char) (c : Char) : Int :=
  match pyFindIdx cs c with
  | some i => (i : Int)
  | none => -1

/-- Python `str.rfind`: last index of the character, or `-1`. -/
def pyRfind (cs : List Char) (c : Char) : Int :=
  match pyRfindIdx cs c with
  | some i => (i : Int)
  | none => -1

/-- The fallback object `{"raw_response": content}`. -/
def fallbackObj (content : String) : Json :=
  Json.obj [("raw_response", Json.str content)]

/-- The slice `content[start:end]` taken by `_parse_json`, from the first
opening brace to the last closing brace inclusive. -/
def braceSlice (content : String) : String :=
  String.mk ((content.data.take (pyRfind content.data '}' + 1).toNat).drop
    (pyFind content.data '{').toNat)

/-- Model of `ExamQuestionGenerator._parse_json` (src/main.py lines 218-226):
slice from the first opening brace to the last closing brace and attempt to
parse the slice as JSON; on any failure return the fallback object. -/
def parse_json (content : String) : Json :=
  let start : Int := pyFind content.data '{'
  let stop : Int := pyRfind content.data '}' + 1
  if start ≠ -1 ∧ stop > start then
    match parseJson (braceSlice content) with
    | some j => j
    | none => fallbackObj content
  else fallbackObj content

/-! ## Session state (`ExamQuestionGenerator`) -/

/-- The session object: model name and the two append-only sequences
(`src/main.py` lines 26-29). -/
structure ExamQuestionGenerator where
  model : String
  question_bank : List Json
  quiz_history : List Json

/-- The generator constructed by `main` with the default model. -/
def initGenerator : ExamQuestionGenerator :=
  { model := "llama3.2", question_bank := [], quiz_history := [] }

/-- Last binding of a key in an association list, as a Python `dict` built
from JSON members resolves duplicate keys. -/
def lookupLast : List (String × Json) → String → Option Json
  | [], _ => none
  | (k', v) :: rest, k =>
    match lookupLast rest k with
    | some r => some r
    | none => if k' = k then some v else none

/-- Python `dict.get(key, default)` on a JSON value. -/
def dictGetD (j : Json) (k : String) (d : Json) : Json :=
  match j with
  | Json.obj kvs => (lookupLast kvs k).getD d
  | _ => d

/-- Whether a JSON object carries the given key. -/
def hasKeyB (j : Json) (k : String) : Bool :=
  match j with
  | Json.obj kvs => (lookupLast kvs k).isSome
  | _ => false

/-- Elements obtained by Python iteration over a value, as `list.extend`
consumes them: a list yields its elements, a string its characters (as
one-character strings), a dict its keys; other values raise `TypeError`,
modelled as `none`. -/
def pyIterElems : Json → Option (List Json)
  | Json.arr xs => some xs
  | Json.str s => some (s.data.map (fun c => Json.str (String.mk [c])))
  | Json.obj kvs => some (kvs.map (fun kv => Json.str kv.1))
  | _ => none

/-! ## Prompt builders

Each builder is the exact f-string template of the corresponding method,
with the braces of the embedded JSON-shape examples written as escapes. -/

/-- Prompt of `generate_questions` (src/main.py lines 33-63). -/
def generate_questions_prompt (content : String) (num_questions : Int)
    (question_type difficulty : String) : String :=
  "Generate exam practice questions from this content.\n\nContent:\n" ++ content ++
  "\n\nNumber of Questions: " ++ String.mk (intChars num_questions) ++
  "\nQuestion Type: " ++ question_type ++
  "\nDifficulty: " ++ difficulty ++
  "\n\nReturn JSON:\n\x7b\n    \"topic\": \"main topic covered\",\n    \"difficulty\": \"" ++
  difficulty ++
  "\",\n    \"questions\": [\n        \x7b\n            \"id\": 1,\n            \"type\": \"question type\",\n            \"bloom_level\": \"cognitive level\",\n            \"question\": \"question text\",\n            \"options\": [\"A) option\", \"B) option\", \"C) option\", \"D) option\"],\n            \"correct_answer\": \"A\",\n            \"explanation\": \"why this is correct\",\n            \"common_mistakes\": [\"wrong answers students pick\"],\n            \"hint\": \"helpful hint\",\n            \"points\": 10\n        \x7d\n    ],\n    \"total_points\": 50,\n    \"time_estimate\": \"minutes to complete\",\n    \"study_tips\": [\"tips based on question topics\"]\n\x7d"

/-- Prompt of `generate_by_bloom` (src/main.py lines 71-97). -/
def generate_by_bloom_prompt (topic bloom_level : String) : String :=
  "Generate questions at " ++ bloom_level ++
  " cognitive level for this topic.\n\nTopic: " ++ topic ++
  "\nBloom\x27s Level: " ++ bloom_level ++
  "\n\nReturn JSON:\n\x7b\n    \"topic\": \"" ++ topic ++
  "\",\n    \"bloom_level\": \"" ++ bloom_level ++
  "\",\n    \"level_description\": \"what this level tests\",\n    \"action_verbs\": [\"verbs used at this level\"],\n    \"questions\": [\n        \x7b\n            \"id\": 1,\n            \"question\": \"question testing " ++
  bloom_level ++
  "\",\n            \"type\": \"appropriate question type\",\n            \"answer_key\": \"expected answer\",\n            \"grading_rubric\": \"how to evaluate\",\n            \"sample_excellent_answer\": \"what a great answer looks like\"\n        \x7d\n    ],\n    \"progression\": \x7b\n        \"prerequisite_level\": \"level before this\",\n        \"next_level\": \"level after this\",\n        \"how_to_upgrade\": \"how to make question harder\"\n    \x7d\n\x7d"

/-- Python `json.dumps` applied to a list of strings, as the exam prompt
embeds the topics. -/
def topicsDump (topics : List String) : String :=
  dumpsJson (Json.arr (topics.map Json.str))

/-- Prompt of `create_practice_exam` (src/main.py lines 103-149). -/
def create_practice_exam_prompt (topics : List String) (duration_minutes : Int) : String :=
  "Create a practice exam.\n\nTopics: " ++ topicsDump topics ++
  "\nDuration: " ++ String.mk (intChars duration_minutes) ++
  " minutes\n\nReturn JSON:\n\x7b\n    \"exam_info\": \x7b\n        \"title\": \"Practice Exam\",\n        \"topics_covered\": " ++
  topicsDump topics ++
  ",\n        \"total_time\": \"" ++ String.mk (intChars duration_minutes) ++
  " minutes\",\n        \"total_points\": 100\n    \x7d,\n    \"instructions\": \"exam instructions\",\n    \"sections\": [\n        \x7b\n            \"section\": \"Section A: Multiple Choice\",\n            \"points\": 30,\n            \"time_allocation\": \"15 minutes\",\n            \"questions\": [\n                \x7b\n                    \"number\": 1,\n                    \"question\": \"question text\",\n                    \"options\": [\"A)\", \"B)\", \"C)\", \"D)\"],\n                    \"points\": 5,\n                    \"answer\": \"A\",\n                    \"topic\": \"which topic\"\n                \x7d\n            ]\n        \x7d\n    ],\n    \"answer_key\": [\n        \x7b\n            \"question\": 1,\n            \"answer\": \"A\",\n            \"explanation\": \"why\"\n        \x7d\n    ],\n    \"grading_scale\": \x7b\n        \"A\": \"90-100\",\n        \"B\": \"80-89\",\n        \"C\": \"70-79\",\n        \"D\": \"60-69\",\n        \"F\": \"below 60\"\n    \x7d,\n    \"study_recommendations\": [\"based on exam content\"]\n\x7d"

/-- Prompt of `generate_flashcards` (src/main.py lines 157-182). -/
def generate_flashcards_prompt (content : String) (num_cards : Int) : String :=
  "Generate study flashcards from this content.\n\nContent:\n" ++ content ++
  "\n\nNumber of Cards: " ++ String.mk (intChars num_cards) ++
  "\n\nReturn JSON:\n\x7b\n    \"topic\": \"main topic\",\n    \"flashcards\": [\n        \x7b\n            \"id\": 1,\n            \"front\": \"question/term/prompt\",\n            \"back\": \"answer/definition/explanation\",\n            \"category\": \"subtopic\",\n            \"difficulty\": \"easy/medium/hard\",\n            \"memory_tip\": \"how to remember\"\n        \x7d\n    ],\n    \"study_suggestions\": \x7b\n        \"spaced_repetition\": \"recommended schedule\",\n        \"grouping\": \"how to organize cards\",\n        \"review_order\": \"suggested sequence\"\n    \x7d\n\x7d"

/-- Prompt of `check_answer` (src/main.py lines 188-213). -/
def check_answer_prompt (question student_answer correct_answer : String) : String :=
  "Evaluate this student answer.\n\nQuestion: " ++ question ++
  "\nStudent\x27s Answer: " ++ student_answer ++
  "\nExpected Answer: " ++ correct_answer ++
  "\n\nReturn JSON:\n\x7b\n    \"question\": \"" ++ question ++
  "\",\n    \"student_answer\": \"" ++ student_answer ++
  "\",\n    \"correct_answer\": \"" ++ correct_answer ++
  "\",\n    \"evaluation\": \x7b\n        \"is_correct\": true,\n        \"score\": 85,\n        \"max_score\": 100\n    \x7d,\n    \"feedback\": \x7b\n        \"strengths\": [\"what\x27s good\"],\n        \"weaknesses\": [\"what\x27s missing\"],\n        \"misconceptions\": [\"any misunderstandings\"],\n        \"specific_corrections\": [\"what to fix\"]\n    \x7d,\n    \"improved_answer\": \"how to write a better answer\",\n    \"related_concepts\": [\"concepts to review\"],\n    \"encouragement\": \"motivational feedback\"\n\x7d"

/-! ## Operations

Each operation takes the collaborator's raw reply text as an explicit
argument (the `ollama.chat` call is external) and returns the updated
session state, the prompt that was sent, and the extracted result. -/

/-- `ExamQuestionGenerator.generate_questions` (src/main.py lines 31-68):
builds the prompt, extracts the reply, and extends the question bank with
the iterated elements of the `questions` value (a `TypeError` from
`list.extend` on a non-iterable value is modelled as `none`). -/
def generate_questions (g : ExamQuestionGenerator) (content : String)
    (num_questions : Int) (question_type difficulty : String)
    (response : String) : Option (ExamQuestionGenerator × String × Json) :=
  let prompt := generate_questions_prompt content num_questions question_type difficulty
  let result := parse_json response
  match pyIterElems (dictGetD result "questions" (Json.arr [])) with
  | some elems =>
      some ({ g with question_bank := g.question_bank ++ elems }, prompt, result)
  | none => none

/-- `ExamQuestionGenerator.generate_by_bloom` (src/main.py lines 70-100):
state is untouched. -/
def generate_by_bloom (g : ExamQuestionGenerator) (topic bloom_level : String)
    (response : String) : ExamQuestionGenerator × String × Json :=
  (g, generate_by_bloom_prompt topic bloom_level, parse_json response)

/-- `ExamQuestionGenerator.create_practice_exam` (src/main.py lines 102-154):
appends the whole extracted result to the quiz history. -/
def create_practice_exam (g : ExamQuestionGenerator) (topics : List String)
    (duration_minutes : Int) (response : String) :
    ExamQuestionGenerator × String × Json :=
  let result := parse_json response
  ({ g with quiz_history := g.quiz_history ++ [result] },
   create_practice_exam_prompt topics duration_minutes, result)

/-- `ExamQuestionGenerator.generate_flashcards` (src/main.py lines 156-185):
state is untouched. -/
def generate_flashcards (g : ExamQuestionGenerator) (content : String)
    (num_cards : Int) (response : String) : ExamQuestionGenerator × String × Json :=
  (g, generate_flashcards_prompt content num_cards, parse_json response)

/-- `ExamQuestionGenerator.check_answer` (src/main.py lines 187-216):
state is untouched. -/
def check_answer (g : ExamQuestionGenerator)
    (question student_answer correct_answer : String)
    (response : String) : ExamQuestionGenerator × String × Json :=
  (g, check_answer_prompt question student_answer correct_answer,
   parse_json response)

/-! ## The session loop (`main`, src/main.py lines 246-326)

One menu selection per step; the reply text of the single chat call of the
step is carried inside the operation. `viewBank` (choice 6) only reads the
bank; `exitApp` (choice 0) leaves the loop. -/

/-- A menu selection together with the collaborator reply it consumes. -/
inductive Op : Type where
  | genQuestions (content : String) (num_questions : Int)
      (question_type difficulty : String) (response : String) : Op
  | genBloom (topic bloom_level response : String) : Op
  | practiceExam (topics : List String) (duration_minutes : Int)
      (response : String) : Op
  | flashcards (content : String) (num_cards : Int) (response : String) : Op
  | checkAnswer (question student_answer correct_answer response : String) : Op
  | viewBank : Op
  | exitApp : Op

/-- Effect of one menu selection on the session state; `none` models an
uncaught exception aborting the run. -/
def step (g : ExamQuestionGenerator) : Op → Option ExamQuestionGenerator
  | Op.genQuestions c n qt d resp =>
      (generate_questions g c n qt d resp).map (fun r => r.1)
  | Op.genBloom t l resp => some (generate_by_bloom g t l resp).1
  | Op.practiceExam ts dur resp => some (create_practice_exam g ts dur resp).1
  | Op.flashcards c n resp => some (generate_flashcards g c n resp).1
  | Op.checkAnswer q sa ca resp => some (check_answer g q sa ca resp).1
  | Op.viewBank => some g
  | Op.exitApp => some g

/-- Run a sequence of menu selections from a starting state. -/
def runSession (g : ExamQuestionGenerator) : List Op → Option ExamQuestionGenerator
  | [] => some g
  | op :: ops =>
    match step g op with
    | some g' => runSession g' ops
    | none => none

/-! ## Basic facts about the extractor -/

theorem pyFindIdx_getElem {cs : List Char} {c : Char} {i : Nat}
    (h : pyFindIdx cs c = some i) : cs[i]? = some c := by
  induction cs generalizing i with
  | nil => simp [pyFindIdx] at h
  | cons x xs ih =>
    simp only [pyFindIdx] at h
    by_cases hx : x = c
    · rw [if_pos hx] at h
      injection h with h
      subst h
      simp [hx]
    · rw [if_neg hx] at h
      cases hf : pyFindIdx xs c with
      | none => rw [hf] at h; simp at h
      | some j =>
        rw [hf] at h
        simp only [Option.map_some', Option.some.injEq] at h
        subst h
        simpa using ih hf

theorem pyRfindIdx_getElem {cs : List Char} {c : Char} {i : Nat}
    (h : pyRfindIdx cs c = some i) : cs[i]? = some c := by
  induction cs generalizing i with
  | nil => simp [pyRfindIdx] at h
  | cons x xs ih =>
    simp only [pyRfindIdx] at h
    cases hf : pyRfindIdx xs c with
    | some j =>
      rw [hf] at h
      injection h with h
      subst h
      simpa using ih hf
    | none =>
      rw [hf] at h
      by_cases hx : x = c
      · rw [if_pos hx] at h
        injection h with h
        subst h
        simp [hx]
      · rw [if_neg hx] at h
        exact absurd h (by simp)

theorem head_of_getElem_zero {l : List Char} {x : Char} (h : l[0]? = some x) :
    ∃ t, l = x :: t := by
  cases l with
  | nil => simp at h
  | cons y t =>
    simp at h
    exact ⟨t, by rw [h]⟩

/-- When the slice is taken at all, it starts with the opening brace. -/
theorem braceSlice_head {content : String} {i k : Nat}
    (hf : pyFindIdx content.data '{' = some i)
    (hr : pyRfindIdx content.data '}' = some k) (hik : i < k) :
    ∃ t, (braceSlice content).data = '{' :: t := by
  have hi := pyFindIdx_getElem hf
  have h0 : ((content.data.take (k + 1)).drop i)[0]? = some '{' := by
    rw [List.getElem?_drop, List.getElem?_take_of_lt (by omega)]
    simpa using hi
  have hslice : (braceSlice content).data = (content.data.take (k + 1)).drop i := by
    simp [braceSlice, pyFind, pyRfind, hf, hr]
  obtain ⟨t, ht⟩ := head_of_getElem_zero h0
  exact ⟨t, by rw [hslice, ht]⟩

/-- A parse that starts at an opening brace can only produce an object. -/
theorem parseVal_lbrace_obj {f : Nat} {t r : List Char} {j : Json}
    (h : parseVal f ('{' :: t) = some (j, r)) : ∃ kvs, j = Json.obj kvs := by
  cases f with
  | zero => simp [parseVal] at h
  | succ f =>
    have hskip : skipWs ('{' :: t) = '{' :: t := by simp [skipWs, isWs]
    simp only [parseVal, hskip] at h
    rw [if_pos trivial] at h
    cases hs : skipWs t with
    | nil => rw [hs] at h; simp at h
    | cons d cs₂ =>
      rw [hs] at h
      simp only [] at h
      by_cases hd : d = '}'
      · rw [if_pos hd] at h
        exact ⟨[], by injection h with h; injection h with h₁ h₂; rw [← h₁]⟩
      · rw [if_neg hd] at h
        by_cases hq : d = '"'
        · rw [if_pos hq] at h
          cases hb : parseStr cs₂ with
          | none => rw [hb] at h; simp at h
          | some kc =>
            obtain ⟨k, cs₃⟩ := kc
            rw [hb] at h
            simp only [] at h
            cases hs₃ : skipWs cs₃ with
            | nil => rw [hs₃] at h; simp at h
            | cons e cs₄ =>
              rw [hs₃] at h
              simp only [] at h
              by_cases he : e = ':'
              · rw [if_pos he] at h
                cases hv : parseVal f cs₄ with
                | none => rw [hv] at h; simp at h
                | some vc =>
                  obtain ⟨v, cs₅⟩ := vc
                  rw [hv] at h
                  simp only [] at h
                  cases ho : parseObjRest f cs₅ with
                  | none => rw [ho] at h; simp at h
                  | some kr =>
                    obtain ⟨kvs, rest⟩ := kr
                    rw [ho] at h
                    simp only [] at h
                    refine ⟨(String.mk k, v) :: kvs, ?_⟩
                    injection h with h
                    injection h with h₁ h₂
                    rw [← h₁]
              · rw [if_neg he] at h; simp at h
        · rw [if_neg hq] at h; simp at h

/-- C9 helper: a string whose characters start with an opening brace parses
only to an object. -/
theorem parseJson_lbrace_obj {s : String} {t : List Char} {j : Json}
    (hd : s.data = '{' :: t) (h : parseJson s = some j) :
    ∃ kvs, j = Json.obj kvs := by
  rw [parseJson] at h
  cases hv : parseVal (2 * s.data.length + 2) s.data with
  | none => rw [hv] at h; simp at h
  | some jr =>
    obtain ⟨j', rest⟩ := jr
    rw [hv] at h
    simp only [] at h
    by_cases hr : skipWs rest = []
    · rw [if_pos hr] at h
      injection h with h
      subst h
      rw [hd] at hv
      exact parseVal_lbrace_obj hv
    · rw [if_neg hr] at h; simp at h

/-- Unfolding of the extractor into its guard, parse attempt, and fallback. -/
theorem pyFind_eq_some {cs : List Char} {c : Char} {i : Nat}
    (h : pyFindIdx cs c = some i) : pyFind cs c = (i : Int) := by
  rw [pyFind, h]

theorem pyFind_eq_none {cs : List Char} {c : Char}
    (h : pyFindIdx cs c = none) : pyFind cs c = -1 := by
  rw [pyFind, h]

theorem pyRfind_eq_some {cs : List Char} {c : Char} {i : Nat}
    (h : pyRfindIdx cs c = some i) : pyRfind cs c = (i : Int) := by
  rw [pyRfind, h]

theorem pyRfind_eq_none {cs : List Char} {c : Char}
    (h : pyRfindIdx cs c = none) : pyRfind cs c = -1 := by
  rw [pyRfind, h]

theorem parse_json_eq (content : String) :
    parse_json content =
      if pyFind content.data '{' ≠ -1 ∧
          pyRfind content.data '}' + 1 > pyFind content.data '{' then
        match parseJson (braceSlice content) with
        | some j => j
        | none => fallbackObj content
      else fallbackObj content := rfl

/-- C2: the Response Extractor is total and never raises: for every input
text it returns a value, either the object parsed from the brace slice or
the fallback object, and no extraction failure propagates as an exception
(failure of `json.loads` is the `none` case of `parseJson`, which the
extractor converts into the fallback object). -/
theorem c2_extractor_total_never_raises (content : String) :
    (∃ j, parseJson (braceSlice content) = some j ∧ parse_json content = j) ∨
      parse_json content = fallbackObj content := by
  by_cases hc : pyFind content.data '{' ≠ -1 ∧
      pyRfind content.data '}' + 1 > pyFind content.data '{'
  · cases hp : parseJson (braceSlice content) with
    | some j =>
      left
      exact ⟨j, rfl, by rw [parse_json_eq, if_pos hc, hp]⟩
    | none =>
      right
      rw [parse_json_eq, if_pos hc, hp]
  · right
    rw [parse_json_eq, if_neg hc]

/-- Every value the extractor returns is an object: helper shared by the
object-shape and idempotence results. -/
theorem parse_json_is_obj (content : String) :
    ∃ kvs, parse_json content = Json.obj kvs := by
  rw [parse_json_eq]
  by_cases hc : pyFind content.data '{' ≠ -1 ∧
      pyRfind content.data '}' + 1 > pyFind content.data '{'
  · rw [if_pos hc]
    obtain ⟨h1, h2⟩ := hc
    cases hf : pyFindIdx content.data '{' with
    | none => rw [pyFind_eq_none hf] at h1; simp at h1
    | some i =>
      cases hrf : pyRfindIdx content.data '}' with
      | none =>
        exfalso
        rw [pyFind_eq_some hf, pyRfind_eq_none hrf] at h2
        omega
      | some k =>
        have hik : i < k := by
          have hi := pyFindIdx_getElem hf
          have hk := pyRfindIdx_getElem hrf
          have hne : i ≠ k := by
            intro he
            rw [he, hk] at hi
            injection hi with hi
            exact absurd hi (by decide)
          rw [pyFind_eq_some hf, pyRfind_eq_some hrf] at h2
          omega
        obtain ⟨t, ht⟩ := braceSlice_head hf hrf hik
        cases hp : parseJson (braceSlice content) with
        | none => exact ⟨[("raw_response", Json.str content)], rfl⟩
        | some j =>
          obtain ⟨kvs, hk2⟩ := parseJson_lbrace_obj ht hp
          exact ⟨kvs, by rw [hk2]⟩
  · rw [if_neg hc]
    exact ⟨[("raw_response", Json.str content)], rfl⟩

/-- C9: every value the Response Extractor returns is a JSON object: a
successful parse starts at an opening brace and so can only yield an
object, and the fallback is the single-key object. -/
theorem c9_extractor_returns_object (content : String) :
    ∃ kvs, parse_json content = Json.obj kvs :=
  parse_json_is_obj content

/-- C5: every `create_practice_exam` call appends exactly one entry, the
whole extracted result object, to the quiz history, so the history grows by
exactly one; the question bank is untouched. -/
theorem c5_practice_exam_appends_one (g : ExamQuestionGenerator)
    (topics : List String) (duration_minutes : Int) (response : String) :
    (create_practice_exam g topics duration_minutes response).1.quiz_history
        = g.quiz_history ++ [parse_json response] ∧
    (create_practice_exam g topics duration_minutes response).1.quiz_history.length
        = g.quiz_history.length + 1 ∧
    (create_practice_exam g topics duration_minutes response).1.question_bank
        = g.question_bank ∧
    (create_practice_exam g topics duration_minutes response).2.2
        = parse_json response := by
  refine ⟨rfl, ?_, rfl, rfl⟩
  simp [create_practice_exam]

/-- C6: `generate_by_bloom`, `generate_flashcards` and `check_answer` leave
both the question bank and the quiz history unchanged for every input and
every reply. -/
theorem c6_three_operations_leave_state_unchanged (g : ExamQuestionGenerator)
    (topic bloom_level content question student_answer correct_answer : String)
    (num_cards : Int) (response : String) :
    (generate_by_bloom g topic bloom_level response).1.question_bank = g.question_bank ∧
    (generate_by_bloom g topic bloom_level response).1.quiz_history = g.quiz_history ∧
    (generate_flashcards g content num_cards response).1.question_bank = g.question_bank ∧
    (generate_flashcards g content num_cards response).1.quiz_history = g.quiz_history ∧
    (check_answer g question student_answer correct_answer response).1.question_bank
        = g.question_bank ∧
    (check_answer g question student_answer correct_answer response).1.quiz_history
        = g.quiz_history :=
  ⟨rfl, rfl, rfl, rfl, rfl, rfl⟩

/-- C4: one `generate_questions` call whose extracted result maps
`questions` to a list of `n` objects extends the question bank by exactly
those `n` objects in order (the history untouched), and a result lacking
the `questions` key (the fallback included) leaves the bank unchanged. -/
theorem c4_generate_questions_extends_bank :
    (∀ (g : ExamQuestionGenerator) (content : String) (num_questions : Int)
        (question_type difficulty response : String) (qs : List Json),
      dictGetD (parse_json response) "questions" (Json.arr []) = Json.arr qs →
      generate_questions g content num_questions question_type difficulty response =
        some ({ g with question_bank := g.question_bank ++ qs },
          generate_questions_prompt content num_questions question_type difficulty,
          parse_json response) ∧
      (g.question_bank ++ qs).length = g.question_bank.length + qs.length) ∧
    (∀ (g : ExamQuestionGenerator) (content : String) (num_questions : Int)
        (question_type difficulty response : String),
      hasKeyB (parse_json response) "questions" = false →
      generate_questions g content num_questions question_type difficulty response =
        some (g,
          generate_questions_prompt content num_questions question_type difficulty,
          parse_json response)) := by
  constructor
  · intro g content num_questions question_type difficulty response qs h
    constructor
    · rw [generate_questions, h]
      rfl
    · simp
  · intro g content num_questions question_type difficulty response h
    have hget : dictGetD (parse_json response) "questions" (Json.arr []) = Json.arr [] := by
      cases hj : parse_json response with
      | obj kvs =>
        rw [hj] at h
        simp only [hasKeyB] at h
        simp only [dictGetD]
        cases hl : lookupLast kvs "questions" with
        | some v => rw [hl] at h; simp at h
        | none => rfl
      | null => rfl
      | bool b => rfl
      | num n => rfl
      | str s => rfl
      | arr xs => rfl
    rw [generate_questions, hget]
    have hg : { g with question_bank := g.question_bank ++ ([] : List Json) } = g := by
      cases g
      simp
    simp only [pyIterElems]
    rw [hg]

/-- C4 witness: a reply carrying two question objects grows the bank by
exactly those two objects, and a reply without a `questions` key leaves the
bank unchanged. -/
theorem c4_generate_questions_extends_bank_witness :
    generate_questions initGenerator "some content" 5 "Mixed" "medium"
        "\x7b\"questions\": [\x7b\"id\": 1\x7d, \x7b\"id\": 2\x7d]\x7d" =
      some ({ initGenerator with question_bank := initGenerator.question_bank ++
            [Json.obj [("id", Json.num 1)], Json.obj [("id", Json.num 2)]] },
        generate_questions_prompt "some content" 5 "Mixed" "medium",
        parse_json "\x7b\"questions\": [\x7b\"id\": 1\x7d, \x7b\"id\": 2\x7d]\x7d") ∧
    generate_questions initGenerator "some content" 5 "Mixed" "medium" "no json here" =
      some (initGenerator,
        generate_questions_prompt "some content" 5 "Mixed" "medium",
        parse_json "no json here") :=
  ⟨(c4_generate_questions_extends_bank.1 initGenerator "some content" 5 "Mixed" "medium"
      "\x7b\"questions\": [\x7b\"id\": 1\x7d, \x7b\"id\": 2\x7d]\x7d"
      [Json.obj [("id", Json.num 1)], Json.obj [("id", Json.num 2)]] (by rfl)).1,
    c4_generate_questions_extends_bank.2 initGenerator "some content" 5 "Mixed" "medium"
      "no json here" (by rfl)⟩

/-- C10: the bank insertion performs no shape validation: when the
extracted result maps `questions` to a string `s`, Python's `list.extend`
iterates the string, so the bank is extended by the individual characters
of `s` (as one-character strings) and its length grows by the length of
`s`. -/
theorem c10_questions_string_extends_by_chars (g : ExamQuestionGenerator)
    (content : String) (num_questions : Int)
    (question_type difficulty response : String) (s : String)
    (h : dictGetD (parse_json response) "questions" (Json.arr []) = Json.str s) :
    generate_questions g content num_questions question_type difficulty response =
      some ({ g with question_bank :=
            g.question_bank ++ s.data.map (fun c => Json.str (String.mk [c])) },
        generate_questions_prompt content num_questions question_type difficulty,
        parse_json response) ∧
    (g.question_bank ++ s.data.map (fun c => Json.str (String.mk [c]))).length
        = g.question_bank.length + s.length := by
  constructor
  · rw [generate_questions, h]
    rfl
  · rw [List.length_append, List.length_map]
    rfl

/-- C10 witness: a reply whose `questions` value is the string `"ab"` grows
the bank by the two one-character strings `"a"` and `"b"`. -/
theorem c10_questions_string_extends_by_chars_witness :
    generate_questions initGenerator "c" 5 "Mixed" "medium"
        "\x7b\"questions\": \"ab\"\x7d" =
      some ({ initGenerator with question_bank := initGenerator.question_bank ++
            [Json.str "a", Json.str "b"] },
        generate_questions_prompt "c" 5 "Mixed" "medium",
        parse_json "\x7b\"questions\": \"ab\"\x7d") ∧
    ([] ++ [Json.str "a", Json.str "b"] : List Json).length = 0 + 2 :=
  ⟨(c10_questions_string_extends_by_chars initGenerator "c" 5 "Mixed" "medium"
      "\x7b\"questions\": \"ab\"\x7d" "ab" (by rfl)).1, rfl⟩

/-- One step of the session only appends to the two sequences. -/
theorem step_extends {g g' : ExamQuestionGenerator} {op : Op}
    (h : step g op = some g') :
    (∃ t, g'.question_bank = g.question_bank ++ t) ∧
    (∃ u, g'.quiz_history = g.quiz_history ++ u) := by
  cases op with
  | genQuestions c n qt d resp =>
    simp only [step] at h
    cases hq : generate_questions g c n qt d resp with
    | none => rw [hq] at h; simp at h
    | some r =>
      rw [hq] at h
      simp only [Option.map_some', Option.some.injEq] at h
      rw [generate_questions] at hq
      cases hE : pyIterElems (dictGetD (parse_json resp) "questions" (Json.arr [])) with
      | none => rw [hE] at hq; simp at hq
      | some elems =>
        rw [hE] at hq
        simp only [Option.some.injEq] at hq
        rw [← h, ← hq]
        exact ⟨⟨elems, rfl⟩, ⟨[], by simp⟩⟩
  | genBloom t l resp =>
    simp only [step, Option.some.injEq] at h
    rw [← h]
    exact ⟨⟨[], (List.append_nil _).symm⟩, ⟨[], (List.append_nil _).symm⟩⟩
  | practiceExam ts dur resp =>
    simp only [step, Option.some.injEq] at h
    rw [← h]
    exact ⟨⟨[], (List.append_nil _).symm⟩, ⟨[parse_json resp], rfl⟩⟩
  | flashcards c n resp =>
    simp only [step, Option.some.injEq] at h
    rw [← h]
    exact ⟨⟨[], (List.append_nil _).symm⟩, ⟨[], (List.append_nil _).symm⟩⟩
  | checkAnswer q sa ca resp =>
    simp only [step, Option.some.injEq] at h
    rw [← h]
    exact ⟨⟨[], (List.append_nil _).symm⟩, ⟨[], (List.append_nil _).symm⟩⟩
  | viewBank =>
    simp only [step, Option.some.injEq] at h
    rw [← h]
    exact ⟨⟨[], (List.append_nil _).symm⟩, ⟨[], (List.append_nil _).symm⟩⟩
  | exitApp =>
    simp only [step, Option.some.injEq] at h
    rw [← h]
    exact ⟨⟨[], (List.append_nil _).symm⟩, ⟨[], (List.append_nil _).symm⟩⟩

/-- C7: append-only session invariant: across any sequence of menu
selections the question bank and the quiz history only grow, the previous
contents surviving unchanged and in order as a prefix of the new contents;
the read-only `viewBank` display and the exit option mutate nothing. -/
theorem c7_session_append_only (ops : List Op) :
    ∀ g g', runSession g ops = some g' →
      (∃ t, g'.question_bank = g.question_bank ++ t) ∧
      (∃ u, g'.quiz_history = g.quiz_history ++ u) := by
  induction ops with
  | nil =>
    intro g g' h
    simp only [runSession, Option.some.injEq] at h
    rw [← h]
    exact ⟨⟨[], by simp⟩, ⟨[], by simp⟩⟩
  | cons op ops ih =>
    intro g g' h
    simp only [runSession] at h
    cases hs : step g op with
    | none => rw [hs] at h; simp at h
    | some g₁ =>
      rw [hs] at h
      obtain ⟨⟨t₁, ht₁⟩, ⟨u₁, hu₁⟩⟩ := step_extends hs
      obtain ⟨⟨t₂, ht₂⟩, ⟨u₂, hu₂⟩⟩ := ih g₁ g' h
      refine ⟨⟨t₁ ++ t₂, ?_⟩, ⟨u₁ ++ u₂, ?_⟩⟩
      · rw [ht₂, ht₁, List.append_assoc]
      · rw [hu₂, hu₁, List.append_assoc]

/-- C7 witness: a concrete four-step session (generate questions, view the
bank, create a practice exam, exit) ends with both of the starting
sequences as prefixes of the final ones. -/
theorem c7_session_append_only_witness :
    (∃ t, (ExamQuestionGenerator.mk "llama3.2" [Json.obj [("id", Json.num 1)]]
        [Json.obj [("a", Json.num 1)]]).question_bank
      = initGenerator.question_bank ++ t) ∧
    (∃ u, (ExamQuestionGenerator.mk "llama3.2" [Json.obj [("id", Json.num 1)]]
        [Json.obj [("a", Json.num 1)]]).quiz_history
      = initGenerator.quiz_history ++ u) :=
  c7_session_append_only
    [Op.genQuestions "content" 5 "Mixed" "medium"
        "\x7b\"questions\": [\x7b\"id\": 1\x7d]\x7d",
      Op.viewBank,
      Op.practiceExam ["algebra"] 60 "\x7b\"a\": 1\x7d",
      Op.exitApp]
    initGenerator
    (ExamQuestionGenerator.mk "llama3.2" [Json.obj [("id", Json.num 1)]]
      [Json.obj [("a", Json.num 1)]])
    (by rfl)

/-- Transcription of claim C1's description of the extractor, written from
the spec's words rather than from the code: if the text contains an opening
brace, the last closing brace occurs after the first opening brace, and the
inclusive substring between them parses as JSON, return the parsed object;
in every other case return the fallback object. -/
def extractorSpec (content : String) : Json :=
  match pyFindIdx content.data '{', pyRfindIdx content.data '}' with
  | some i, some k =>
    if i < k then
      match parseJson (String.mk ((content.data.drop i).take (k - i + 1))) with
      | some j => j
      | none => fallbackObj content
    else fallbackObj content
  | _, _ => fallbackObj content

/-- C1: the Response Extractor behaves exactly as the claim describes: it
returns the parsed object precisely when the first opening brace exists,
the last closing brace comes after it, and the inclusive slice parses as
JSON; in every other case it returns the fallback object. -/
theorem c1_extractor_matches_spec (content : String) :
    parse_json content = extractorSpec content := by
  rw [parse_json_eq, extractorSpec]
  cases hf : pyFindIdx content.data '{' with
  | none =>
    have hguard : ¬(pyFind content.data '{' ≠ -1 ∧
        pyRfind content.data '}' + 1 > pyFind content.data '{') := by
      rw [pyFind_eq_none hf]
      simp
    rw [if_neg hguard]
  | some i =>
    cases hr : pyRfindIdx content.data '}' with
    | none =>
      have hguard : ¬(pyFind content.data '{' ≠ -1 ∧
          pyRfind content.data '}' + 1 > pyFind content.data '{') := by
        rw [pyFind_eq_some hf, pyRfind_eq_none hr]
        intro hcon
        obtain ⟨_, h2⟩ := hcon
        omega
      rw [if_neg hguard]
    | some k =>
      have hi := pyFindIdx_getElem hf
      have hk := pyRfindIdx_getElem hr
      have hne : i ≠ k := by
        intro he
        rw [he, hk] at hi
        injection hi with hi
        exact absurd hi (by decide)
      by_cases hik : i < k
      · have hguard : pyFind content.data '{' ≠ -1 ∧
            pyRfind content.data '}' + 1 > pyFind content.data '{' := by
          rw [pyFind_eq_some hf, pyRfind_eq_some hr]
          constructor
          · omega
          · omega
        rw [if_pos hguard]
        simp only []
        rw [if_pos hik]
        have hbs : braceSlice content
            = String.mk ((content.data.drop i).take (k - i + 1)) := by
          rw [braceSlice, pyFind_eq_some hf, pyRfind_eq_some hr]
          have h1 : (((k : Int)) + 1).toNat = k + 1 := by omega
          have h2 : ((i : Int)).toNat = i := by omega
          rw [h1, h2, List.drop_take]
          congr 2
          omega
        rw [hbs]
      · have hguard : ¬(pyFind content.data '{' ≠ -1 ∧
            pyRfind content.data '}' + 1 > pyFind content.data '{') := by
          rw [pyFind_eq_some hf, pyRfind_eq_some hr]
          intro hcon
          obtain ⟨_, h2⟩ := hcon
          omega
        rw [if_neg hguard]
        simp only []
        rw [if_neg hik]

/-! ## Substring containment, for the prompt-builder claims -/

/-- The needle occurs contiguously inside the hay. -/
def strContains (hay needle : String) : Prop :=
  ∃ l r, hay.data = l ++ needle.data ++ r

theorem string_data_append (a b : String) : (a ++ b).data = a.data ++ b.data := rfl

theorem strContains_refl (p : String) : strContains p p :=
  ⟨[], [], by simp⟩

theorem strContains_left {a : String} (b p : String) (h : strContains a p) :
    strContains (a ++ b) p := by
  obtain ⟨l, r, hl⟩ := h
  exact ⟨l, r ++ b.data, by rw [string_data_append, hl]; simp⟩

theorem strContains_right {b : String} (a p : String) (h : strContains b p) :
    strContains (a ++ b) p := by
  obtain ⟨l, r, hl⟩ := h
  exact ⟨a.data ++ l, r, by rw [string_data_append, hl]; simp⟩

theorem append_ne_empty_of_left {a : String} (b : String) (h : a ≠ "") :
    a ++ b ≠ "" := by
  intro hc
  apply h
  have hd : a.data ++ b.data = [] := by
    rw [← string_data_append, hc]
  have ha : a.data = [] := (List.append_eq_nil.mp hd).1
  exact congrArg String.mk ha

/-- Bool test that the needle starts the hay. -/
def startsWithB : List Char → List Char → Bool
  | [], _ => true
  | _ :: _, [] => false
  | n :: ns, h :: hs => if n = h then startsWithB ns hs else false

/-- Bool test that the needle occurs contiguously inside the hay. -/
def subListB (needle : List Char) : List Char → Bool
  | [] => needle.isEmpty
  | c :: t => startsWithB needle (c :: t) || subListB needle t

theorem startsWithB_iff {needle hay : List Char} :
    startsWithB needle hay = true ↔ ∃ r, hay = needle ++ r := by
  induction needle generalizing hay with
  | nil => simp [startsWithB]
  | cons n ns ih =>
    cases hay with
    | nil => simp [startsWithB]
    | cons h hs =>
      by_cases hn : n = h
      · subst hn
        simp [startsWithB, ih]
      · simp [startsWithB, hn, Ne.symm hn]

theorem subListB_iff {needle hay : List Char} :
    subListB needle hay = true ↔ ∃ l r, hay = l ++ needle ++ r := by
  induction hay with
  | nil =>
    simp only [subListB, List.isEmpty_iff]
    constructor
    · intro h
      exact ⟨[], [], by simp [h]⟩
    · intro ⟨l, r, h⟩
      have := List.append_eq_nil.mp h.symm
      have := List.append_eq_nil.mp this.1
      exact this.2
  | cons c t ih =>
    simp only [subListB, Bool.or_eq_true, startsWithB_iff, ih]
    constructor
    · intro h
      cases h with
      | inl h => obtain ⟨r, hr⟩ := h; exact ⟨[], r, by simp [hr]⟩
      | inr h => obtain ⟨l, r, hr⟩ := h; exact ⟨c :: l, r, by simp [hr]⟩
    · intro ⟨l, r, hr⟩
      cases l with
      | nil => exact Or.inl ⟨r, by simpa using hr⟩
      | cons x xs =>
        simp only [List.cons_append, List.cons.injEq] at hr
        exact Or.inr ⟨xs, r, hr.2⟩

theorem strContains_iff_subListB {hay needle : String} :
    strContains hay needle ↔ subListB needle.data hay.data = true := by
  rw [subListB_iff]
  constructor
  · intro ⟨l, r, h⟩; exact ⟨l, r, h⟩
  · intro ⟨l, r, h⟩; exact ⟨l, r, h⟩

/-! ## Topic embedding inside the dumped topics list -/

theorem serArrRest_contains_esc {t : String} {xs : List String} (h : t ∈ xs) :
    ∃ l r, serArrRest (xs.map Json.str) = l ++ escChars t.data ++ r := by
  induction xs with
  | nil => simp at h
  | cons x rest ih =>
    cases List.mem_cons.mp h with
    | inl he =>
      subst he
      refine ⟨[',', ' ', '"'], '"' :: serArrRest (rest.map Json.str), ?_⟩
      simp [serArrRest, serChars]
    | inr hm =>
      obtain ⟨l, r, hl⟩ := ih hm
      refine ⟨',' :: ' ' :: (serChars (Json.str x) ++ l), r, ?_⟩
      simp only [List.map_cons, serArrRest, hl]
      simp [List.append_assoc]

theorem topicsDump_contains_esc {t : String} {topics : List String}
    (h : t ∈ topics) :
    strContains (topicsDump topics) (String.mk (escChars t.data)) := by
  cases topics with
  | nil => simp at h
  | cons x rest =>
    cases List.mem_cons.mp h with
    | inl he =>
      subst he
      refine ⟨['[', '"'], '"' :: serArrRest (rest.map Json.str), ?_⟩
      show serChars (Json.arr ((t :: rest).map Json.str)) = _
      simp [serChars, serArrRest]
    | inr hm =>
      obtain ⟨l, r, hl⟩ := serArrRest_contains_esc hm
      refine ⟨'[' :: (serChars (Json.str x) ++ l), r, ?_⟩
      show serChars (Json.arr ((x :: rest).map Json.str)) = _
      simp only [List.map_cons, serChars, hl]
      simp [List.append_assoc]

theorem escChars_id {l : List Char} (h : ∀ c ∈ l, escapeChar c = [c]) :
    escChars l = l := by
  induction l with
  | nil => rfl
  | cons c cs ih =>
    rw [escChars, h c (by simp), ih (fun d hd => h d (by simp [hd]))]
    rfl

set_option maxRecDepth 40000 in
/-- C3 counterexample: the claim fails as stated. For the Create Practice
Exam operation the topics are embedded through `json.dumps`, which escapes
a double quote inside a topic, so the exact topic string `a"b` is not a
substring of the constructed prompt. -/
theorem c3_counterexample_topic_with_quote :
    ¬ strContains (create_practice_exam_prompt [String.mk ['a', '"', 'b']] 60)
        (String.mk ['a', '"', 'b']) := by
  rw [strContains_iff_subListB]
  decide

/-- C3 as amended: for every operation the constructed prompt is a
non-empty string; the content, the numeric counts and duration (in decimal
rendering), the question type, the difficulty token, the topic and Bloom
level of `generate_by_bloom`, and the strings of `check_answer` all appear
verbatim; for `create_practice_exam` each topic appears in its JSON
string-escaped form under the default encoder (ensure_ascii), hence
verbatim whenever every character of the topic is one the encoder leaves
literal: printable ASCII (0x20 to 0x7E) other than the double quote and
the backslash. -/
theorem c3_prompts_contain_parameters :
    (∀ (content : String) (num_questions : Int) (question_type difficulty : String),
      generate_questions_prompt content num_questions question_type difficulty ≠ "" ∧
      strContains (generate_questions_prompt content num_questions question_type difficulty)
        content ∧
      strContains (generate_questions_prompt content num_questions question_type difficulty)
        (String.mk (intChars num_questions)) ∧
      strContains (generate_questions_prompt content num_questions question_type difficulty)
        question_type ∧
      strContains (generate_questions_prompt content num_questions question_type difficulty)
        difficulty) ∧
    (∀ topic bloom_level : String,
      generate_by_bloom_prompt topic bloom_level ≠ "" ∧
      strContains (generate_by_bloom_prompt topic bloom_level) topic ∧
      strContains (generate_by_bloom_prompt topic bloom_level) bloom_level) ∧
    (∀ (topics : List String) (duration_minutes : Int),
      create_practice_exam_prompt topics duration_minutes ≠ "" ∧
      strContains (create_practice_exam_prompt topics duration_minutes)
        (String.mk (intChars duration_minutes)) ∧
      ∀ t ∈ topics,
        strContains (create_practice_exam_prompt topics duration_minutes)
          (String.mk (escChars t.data)) ∧
        ((∀ c ∈ t.data, escapeChar c = [c]) →
          strContains (create_practice_exam_prompt topics duration_minutes) t)) ∧
    (∀ (content : String) (num_cards : Int),
      generate_flashcards_prompt content num_cards ≠ "" ∧
      strContains (generate_flashcards_prompt content num_cards) content ∧
      strContains (generate_flashcards_prompt content num_cards)
        (String.mk (intChars num_cards))) ∧
    (∀ question student_answer correct_answer : String,
      check_answer_prompt question student_answer correct_answer ≠ "" ∧
      strContains (check_answer_prompt question student_answer correct_answer) question ∧
      strContains (check_answer_prompt question student_answer correct_answer)
        student_answer ∧
      strContains (check_answer_prompt question student_answer correct_answer)
        correct_answer) := by
  refine ⟨?_, ?_, ?_, ?_, ?_⟩
  · intro content num_questions question_type difficulty
    refine ⟨?_, ?_, ?_, ?_, ?_⟩
    · rw [generate_questions_prompt]
      repeat' apply append_ne_empty_of_left
      decide
    · rw [generate_questions_prompt]
      apply strContains_left
      apply strContains_left
      apply strContains_left
      apply strContains_left
      apply strContains_left
      apply strContains_left
      apply strContains_left
      apply strContains_left
      apply strContains_left
      apply strContains_right
      exact strContains_refl _
    · rw [generate_questions_prompt]
      apply strContains_left
      apply strContains_left
      apply strContains_left
      apply strContains_left
      apply strContains_left
      apply strContains_left
      apply strContains_left
      apply strContains_right
      exact strContains_refl _
    · rw [generate_questions_prompt]
      apply strContains_left
      apply strContains_left
      apply strContains_left
      apply strContains_left
      apply strContains_left
      apply strContains_right
      exact strContains_refl _
    · rw [generate_questions_prompt]
      apply strContains_left
      apply strContains_right
      exact strContains_refl _
  · intro topic bloom_level
    refine ⟨?_, ?_, ?_⟩
    · rw [generate_by_bloom_prompt]
      repeat' apply append_ne_empty_of_left
      decide
    · rw [generate_by_bloom_prompt]
      apply strContains_left
      apply strContains_left
      apply strContains_left
      apply strContains_left
      apply strContains_left
      apply strContains_right
      exact strContains_refl _
    · rw [generate_by_bloom_prompt]
      apply strContains_left
      apply strContains_right
      exact strContains_refl _
  · intro topics duration_minutes
    refine ⟨?_, ?_, ?_⟩
    · rw [create_practice_exam_prompt]
      repeat' apply append_ne_empty_of_left
      decide
    · rw [create_practice_exam_prompt]
      apply strContains_left
      apply strContains_right
      exact strContains_refl _
    · intro t ht
      constructor
      · rw [create_practice_exam_prompt]
        apply strContains_left
        apply strContains_left
        apply strContains_left
        apply strContains_right
        exact topicsDump_contains_esc ht
      · intro hesc
        have he : String.mk (escChars t.data) = t := by
          rw [escChars_id hesc]
        rw [← he]
        rw [create_practice_exam_prompt]
        apply strContains_left
        apply strContains_left
        apply strContains_left
        apply strContains_right
        exact topicsDump_contains_esc ht
  · intro content num_cards
    refine ⟨?_, ?_, ?_⟩
    · rw [generate_flashcards_prompt]
      repeat' apply append_ne_empty_of_left
      decide
    · rw [generate_flashcards_prompt]
      apply strContains_left
      apply strContains_left
      apply strContains_left
      apply strContains_right
      exact strContains_refl _
    · rw [generate_flashcards_prompt]
      apply strContains_left
      apply strContains_right
      exact strContains_refl _
  · intro question student_answer correct_answer
    refine ⟨?_, ?_, ?_, ?_⟩
    · rw [check_answer_prompt]
      repeat' apply append_ne_empty_of_left
      decide
    · rw [check_answer_prompt]
      apply strContains_left
      apply strContains_left
      apply strContains_left
      apply strContains_left
      apply strContains_left
      apply strContains_right
      exact strContains_refl _
    · rw [check_answer_prompt]
      apply strContains_left
      apply strContains_left
      apply strContains_left
      apply strContains_right
      exact strContains_refl _
    · rw [check_answer_prompt]
      apply strContains_left
      apply strContains_right
      exact strContains_refl _

/-- C3 witness: a plain topic without escaped characters appears verbatim
in the practice-exam prompt, and the dumped duration appears verbatim. -/
theorem c3_prompts_contain_parameters_witness :
    strContains (create_practice_exam_prompt ["math"] 60) "math" ∧
    strContains (create_practice_exam_prompt ["math"] 60)
      (String.mk (intChars 60)) :=
  ⟨((c3_prompts_contain_parameters.2.2.1 ["math"] 60).2.2 "math"
      (by simp)).2 (by decide),
    (c3_prompts_contain_parameters.2.2.1 ["math"] 60).2.1⟩

/-! ## Round trip of the string escapes -/

theorem hexVal_hexDigitChar (d : Nat) (h : d < 16) :
    hexVal (hexDigitChar d) = some d := by
  interval_cases d <;> decide

theorem hex4_hexEsc (t : Nat) (h : t < 65536) :
    hex4 (hexDigitChar (t / 4096 % 16)) (hexDigitChar (t / 256 % 16))
      (hexDigitChar (t / 16 % 16)) (hexDigitChar (t % 16)) = some t := by
  have e1 := hexVal_hexDigitChar (t / 4096 % 16) (by omega)
  have e2 := hexVal_hexDigitChar (t / 256 % 16) (by omega)
  have e3 := hexVal_hexDigitChar (t / 16 % 16) (by omega)
  have e4 := hexVal_hexDigitChar (t % 16) (by omega)
  rw [hex4, e1, e2, e3, e4]
  simp only [Option.some.injEq]
  omega

theorem char_toNat_valid (c : Char) :
    c.toNat < 55296 ∨ (57344 ≤ c.toNat ∧ c.toNat < 1114112) := c.valid

theorem parseStrBody_quote (f : Nat) (X : List Char) :
    parseStrBody (f + 1) ('"' :: X) = some ([], X) := by
  rw [parseStrBody.eq_def]
  simp

theorem parseStrBody_esc (f : Nat) {e d : Char} (hu : ¬ e = 'u')
    (hd : escDecode e = some d) (X : List Char) :
    parseStrBody (f + 1) ('\\' :: e :: X) =
      match parseStrBody f X with
      | some (s, rest) => some (d :: s, rest)
      | none => none := by
  rw [parseStrBody.eq_def]
  simp [hu, hd]

theorem parseStrBody_escU (f : Nat) (h₁ h₂ h₃ h₄ : Char) (n : Nat) (X : List Char)
    (hh : hex4 h₁ h₂ h₃ h₄ = some n) (hn : n < 55296 ∨ 57344 ≤ n) :
    parseStrBody (f + 1) ('\\' :: 'u' :: h₁ :: h₂ :: h₃ :: h₄ :: X) =
      match parseStrBody f X with
      | some (s, rest) => some (Char.ofNat n :: s, rest)
      | none => none := by
  rw [parseStrBody.eq_def]
  simp [hh, hn]

theorem parseStrBody_escPair (f : Nat) (h₁ h₂ h₃ h₄ : Char) (n : Nat)
    (X X' : List Char) (ch : Char)
    (hh : hex4 h₁ h₂ h₃ h₄ = some n) (hn1 : 55296 ≤ n) (hn2 : n < 56320)
    (hlow : lowSurrogate n X = some (ch, X')) :
    parseStrBody (f + 1) ('\\' :: 'u' :: h₁ :: h₂ :: h₃ :: h₄ :: X) =
      match parseStrBody f X' with
      | some (s, rest) => some (ch :: s, rest)
      | none => none := by
  have hc1 : ¬(n < 55296 ∨ 57344 ≤ n) := by omega
  rw [parseStrBody.eq_def]
  simp [hh, hc1, hn2, hlow]

theorem lowSurrogate_hexEsc (n m : Nat) (g₁ g₂ g₃ g₄ : Char) (Y : List Char)
    (hm : hex4 g₁ g₂ g₃ g₄ = some m) (hr1 : 56320 ≤ m) (hr2 : m < 57344) :
    lowSurrogate n ('\\' :: 'u' :: g₁ :: g₂ :: g₃ :: g₄ :: Y) =
      some (Char.ofNat (65536 + (n - 55296) * 1024 + (m - 56320)), Y) := by
  rw [lowSurrogate.eq_def]
  simp [hm, hr1, hr2]

theorem parseStrBody_plain (f : Nat) {c : Char} (hq : ¬ c = '"') (hb : ¬ c = '\\')
    (hc : ¬ c.toNat < 32) (X : List Char) :
    parseStrBody (f + 1) (c :: X) =
      match parseStrBody f X with
      | some (s, rest) => some (c :: s, rest)
      | none => none := by
  rw [parseStrBody.eq_def]
  simp [hq, hb, hc]

/-- Parsing the escaped characters followed by a closing quote recovers the
original characters and the remaining input, for any fuel above the number
of encoded characters. -/
theorem parseStrBody_escChars (s : List Char) :
    ∀ (f : Nat) (rest : List Char), s.length < f →
      parseStrBody f (escChars s ++ ('"' :: rest)) = some (s, rest) := by
  induction s with
  | nil =>
    intro f rest hf
    match f, hf with
    | f' + 1, _ =>
      show parseStrBody (f' + 1) ('"' :: rest) = some ([], rest)
      exact parseStrBody_quote f' rest
  | cons c cs ih =>
    intro f rest hf
    match f, hf with
    | f' + 1, hf1 =>
      have hf' : cs.length < f' := by
        simp only [List.length_cons] at hf1
        omega
      rw [escChars, List.append_assoc]
      by_cases hq : c = '"'
      · subst hq
        rw [escapeChar, if_pos rfl]
        show parseStrBody (f' + 1) ('\\' :: '"' :: (escChars cs ++ ('"' :: rest))) = _
        rw [parseStrBody_esc f' (by decide) (show escDecode '"' = some '"' from rfl),
          ih f' rest hf']
      · by_cases hb : c = '\\'
        · subst hb
          rw [escapeChar, if_neg (by decide), if_pos rfl]
          show parseStrBody (f' + 1) ('\\' :: '\\' :: (escChars cs ++ ('"' :: rest))) = _
          rw [parseStrBody_esc f' (by decide) (show escDecode '\\' = some '\\' from rfl),
            ih f' rest hf']
        · by_cases h8 : c.toNat = 8
          · rw [escapeChar, if_neg hq, if_neg hb, if_pos h8]
            show parseStrBody (f' + 1) ('\\' :: 'b' :: (escChars cs ++ ('"' :: rest))) = _
            rw [parseStrBody_esc f' (by decide)
              (show escDecode 'b' = some (Char.ofNat 8) from rfl), ih f' rest hf']
            rw [show Char.ofNat 8 = c from by rw [← h8, Char.ofNat_toNat]]
          · by_cases h9 : c.toNat = 9
            · rw [escapeChar, if_neg hq, if_neg hb, if_neg h8, if_pos h9]
              show parseStrBody (f' + 1) ('\\' :: 't' :: (escChars cs ++ ('"' :: rest))) = _
              rw [parseStrBody_esc f' (by decide)
                (show escDecode 't' = some (Char.ofNat 9) from rfl), ih f' rest hf']
              rw [show Char.ofNat 9 = c from by rw [← h9, Char.ofNat_toNat]]
            · by_cases h10 : c.toNat = 10
              · rw [escapeChar, if_neg hq, if_neg hb, if_neg h8, if_neg h9, if_pos h10]
                show parseStrBody (f' + 1)
                  ('\\' :: 'n' :: (escChars cs ++ ('"' :: rest))) = _
                rw [parseStrBody_esc f' (by decide)
                  (show escDecode 'n' = some (Char.ofNat 10) from rfl), ih f' rest hf']
                rw [show Char.ofNat 10 = c from by rw [← h10, Char.ofNat_toNat]]
              · by_cases h12 : c.toNat = 12
                · rw [escapeChar, if_neg hq, if_neg hb, if_neg h8, if_neg h9,
                    if_neg h10, if_pos h12]
                  show parseStrBody (f' + 1)
                    ('\\' :: 'f' :: (escChars cs ++ ('"' :: rest))) = _
                  rw [parseStrBody_esc f' (by decide)
                    (show escDecode 'f' = some (Char.ofNat 12) from rfl), ih f' rest hf']
                  rw [show Char.ofNat 12 = c from by rw [← h12, Char.ofNat_toNat]]
                · by_cases h13 : c.toNat = 13
                  · rw [escapeChar, if_neg hq, if_neg hb, if_neg h8, if_neg h9,
                      if_neg h10, if_neg h12, if_pos h13]
                    show parseStrBody (f' + 1)
                      ('\\' :: 'r' :: (escChars cs ++ ('"' :: rest))) = _
                    rw [parseStrBody_esc f' (by decide)
                      (show escDecode 'r' = some (Char.ofNat 13) from rfl), ih f' rest hf']
                    rw [show Char.ofNat 13 = c from by rw [← h13, Char.ofNat_toNat]]
                  · by_cases hc32 : c.toNat < 32
                    · rw [escapeChar, if_neg hq, if_neg hb, if_neg h8, if_neg h9,
                        if_neg h10, if_neg h12, if_neg h13, if_pos hc32, hexEsc]
                      show parseStrBody (f' + 1) ('\\' :: 'u' ::
                          hexDigitChar (c.toNat / 4096 % 16) ::
                          hexDigitChar (c.toNat / 256 % 16) ::
                          hexDigitChar (c.toNat / 16 % 16) ::
                          hexDigitChar (c.toNat % 16) ::
                          (escChars cs ++ ('"' :: rest))) = _
                      rw [parseStrBody_escU f' _ _ _ _ c.toNat _
                        (hex4_hexEsc c.toNat (by omega)) (Or.inl (by omega)),
                        ih f' rest hf', Char.ofNat_toNat]
                    · by_cases h127 : c.toNat < 127
                      · rw [escapeChar, if_neg hq, if_neg hb, if_neg h8, if_neg h9,
                          if_neg h10, if_neg h12, if_neg h13, if_neg hc32, if_pos h127]
                        show parseStrBody (f' + 1)
                          (c :: (escChars cs ++ ('"' :: rest))) = _
                        rw [parseStrBody_plain f' hq hb hc32, ih f' rest hf']
                      · by_cases h64k : c.toNat < 65536
                        · rw [escapeChar, if_neg hq, if_neg hb, if_neg h8, if_neg h9,
                            if_neg h10, if_neg h12, if_neg h13, if_neg hc32,
                            if_neg h127, if_pos h64k, hexEsc]
                          show parseStrBody (f' + 1) ('\\' :: 'u' ::
                              hexDigitChar (c.toNat / 4096 % 16) ::
                              hexDigitChar (c.toNat / 256 % 16) ::
                              hexDigitChar (c.toNat / 16 % 16) ::
                              hexDigitChar (c.toNat % 16) ::
                              (escChars cs ++ ('"' :: rest))) = _
                          have hval : c.toNat < 55296 ∨ 57344 ≤ c.toNat := by
                            rcases char_toNat_valid c with h | h
                            · exact Or.inl h
                            · exact Or.inr h.1
                          rw [parseStrBody_escU f' _ _ _ _ c.toNat _
                            (hex4_hexEsc c.toNat h64k) hval,
                            ih f' rest hf', Char.ofNat_toNat]
                        · rw [escapeChar, if_neg hq, if_neg hb, if_neg h8, if_neg h9,
                            if_neg h10, if_neg h12, if_neg h13, if_neg hc32,
                            if_neg h127, if_neg h64k]
                          have hlt : c.toNat < 1114112 := by
                            rcases char_toNat_valid c with h | h
                            · omega
                            · exact h.2
                          have hq1 : (c.toNat - 65536) / 1024 < 1024 := by omega
                          have hr1 : (c.toNat - 65536) % 1024 < 1024 := by omega
                          rw [show hexEsc (55296 + (c.toNat - 65536) / 1024) ++
                                hexEsc (56320 + (c.toNat - 65536) % 1024) ++
                                (escChars cs ++ ('"' :: rest))
                              = '\\' :: 'u' ::
                                hexDigitChar ((55296 + (c.toNat - 65536) / 1024) / 4096 % 16) ::
                                hexDigitChar ((55296 + (c.toNat - 65536) / 1024) / 256 % 16) ::
                                hexDigitChar ((55296 + (c.toNat - 65536) / 1024) / 16 % 16) ::
                                hexDigitChar ((55296 + (c.toNat - 65536) / 1024) % 16) ::
                                (hexEsc (56320 + (c.toNat - 65536) % 1024) ++
                                  (escChars cs ++ ('"' :: rest)))
                              from by rw [hexEsc]; simp [List.append_assoc]]
                          rw [show hexEsc (56320 + (c.toNat - 65536) % 1024) ++
                                (escChars cs ++ ('"' :: rest))
                              = '\\' :: 'u' ::
                                hexDigitChar ((56320 + (c.toNat - 65536) % 1024) / 4096 % 16) ::
                                hexDigitChar ((56320 + (c.toNat - 65536) % 1024) / 256 % 16) ::
                                hexDigitChar ((56320 + (c.toNat - 65536) % 1024) / 16 % 16) ::
                                hexDigitChar ((56320 + (c.toNat - 65536) % 1024) % 16) ::
                                (escChars cs ++ ('"' :: rest))
                              from by simp [hexEsc]]
                          rw [parseStrBody_escPair f' _ _ _ _
                            (55296 + (c.toNat - 65536) / 1024) _
                            (escChars cs ++ ('"' :: rest)) _
                            (hex4_hexEsc _ (by omega)) (by omega) (by omega)
                            (lowSurrogate_hexEsc _ (56320 + (c.toNat - 65536) % 1024)
                              _ _ _ _ _ (hex4_hexEsc _ (by omega)) (by omega) (by omega))]
                          rw [ih f' rest hf']
                          rw [show 65536 + (55296 + (c.toNat - 65536) / 1024 - 55296) * 1024 +
                              (56320 + (c.toNat - 65536) % 1024 - 56320) = c.toNat from by omega,
                            Char.ofNat_toNat]

/-- The wrapper always carries enough fuel: each encoded character occupies
at least one input character. -/
theorem escapeChar_length_pos (c : Char) : 1 ≤ (escapeChar c).length := by
  rw [escapeChar]
  repeat' split
  all_goals simp [hexEsc]

theorem escChars_length_ge (s : List Char) : s.length ≤ (escChars s).length := by
  induction s with
  | nil => simp [escChars]
  | cons c cs ih =>
    rw [escChars, List.length_append, List.length_cons]
    have := escapeChar_length_pos c
    omega

theorem parseStr_escChars (s : List Char) (rest : List Char) :
    parseStr (escChars s ++ ('"' :: rest)) = some (s, rest) := by
  rw [parseStr]
  apply parseStrBody_escChars
  have := escChars_length_ge s
  rw [List.length_append, List.length_cons]
  omega

/-! ## Round trip of integer numerals -/

theorem digitChar_toNat {d : Nat} (h : d < 10) : (digitChar d).toNat = 48 + d := by
  interval_cases d <;> decide

theorem digitChar_isDigit {d : Nat} (h : d < 10) : isDigit (digitChar d) = true := by
  interval_cases d <;> decide

theorem digitChar_ne_zero {d : Nat} (h1 : 1 ≤ d) (h2 : d < 10) :
    digitChar d ≠ '0' := by
  interval_cases d <;> decide

theorem natChars_ne_nil (n : Nat) : natChars n ≠ [] := by
  rw [natChars_eq]
  by_cases h : n < 10
  · rw [if_pos h]; simp
  · rw [if_neg h]; simp

theorem natChars_all_digits (n : Nat) : ∀ c ∈ natChars n, isDigit c = true := by
  induction n using Nat.strong_induction_on with
  | _ n ih =>
    rw [natChars_eq]
    by_cases h : n < 10
    · rw [if_pos h]
      intro c hc
      simp only [List.mem_singleton] at hc
      rw [hc]
      exact digitChar_isDigit h
    · rw [if_neg h]
      intro c hc
      rcases List.mem_append.mp hc with hm | hm
      · exact ih (n / 10) (Nat.div_lt_self (by omega) (by omega)) c hm
      · simp only [List.mem_singleton] at hm
        rw [hm]
        exact digitChar_isDigit (by omega)

theorem natChars_head_ne_zero (n : Nat) (hn : 1 ≤ n) :
    (natChars n).head? ≠ some '0' := by
  induction n using Nat.strong_induction_on with
  | _ n ih =>
    rw [natChars_eq]
    by_cases h : n < 10
    · rw [if_pos h]
      intro hc
      simp only [List.head?_cons, Option.some.injEq] at hc
      exact digitChar_ne_zero hn h hc
    · rw [if_neg h]
      rw [List.head?_append_of_ne_nil _ (natChars_ne_nil (n / 10))]
      exact ih (n / 10) (Nat.div_lt_self (by omega) (by omega)) (by omega)

theorem digitsToNat_append (acc : Nat) (xs ys : List Char) :
    digitsToNat acc (xs ++ ys) = digitsToNat (digitsToNat acc xs) ys := by
  induction xs generalizing acc with
  | nil => rfl
  | cons c cs ih =>
    rw [show digitsToNat acc ((c :: cs) ++ ys)
        = digitsToNat (acc * 10 + (c.toNat - 48)) (cs ++ ys) from rfl]
    rw [show digitsToNat acc (c :: cs)
        = digitsToNat (acc * 10 + (c.toNat - 48)) cs from rfl]
    exact ih _

theorem digitsToNat_natChars (n : Nat) : digitsToNat 0 (natChars n) = n := by
  induction n using Nat.strong_induction_on with
  | _ n ih =>
    rw [natChars_eq]
    by_cases h : n < 10
    · rw [if_pos h]
      rw [show digitsToNat 0 [digitChar n]
          = 0 * 10 + ((digitChar n).toNat - 48) from rfl]
      rw [digitChar_toNat h]
      omega
    · rw [if_neg h, digitsToNat_append,
        ih (n / 10) (Nat.div_lt_self (by omega) (by omega))]
      rw [show digitsToNat (n / 10) [digitChar (n % 10)]
          = n / 10 * 10 + ((digitChar (n % 10)).toNat - 48) from rfl]
      rw [digitChar_toNat (show n % 10 < 10 by omega)]
      omega

theorem natChars_no_leading_zero (n : Nat) :
    ¬(1 < (natChars n).length ∧ (natChars n).head? = some '0') := by
  intro ⟨hlen, hhead⟩
  by_cases h : n < 10
  · rw [natChars_eq, if_pos h] at hlen
    simp at hlen
  · exact natChars_head_ne_zero n (by omega) hhead

/-- The characters after a serialized numeral never extend it: the head of
the remaining input is not a digit and not `.`, `e` or `E`. -/
def numStopB : List Char → Bool
  | [] => true
  | c :: _ => !isDigit c && c.toNat != 46 && c.toNat != 101 && c.toNat != 69

theorem numStopB_cons {c : Char} {t : List Char} (h : numStopB (c :: t) = true) :
    isDigit c = false ∧ c.toNat ≠ 46 ∧ c.toNat ≠ 101 ∧ c.toNat ≠ 69 := by
  simp only [numStopB, Bool.and_eq_true, bne_iff_ne, ne_eq,
    Bool.not_eq_true'] at h
  exact ⟨h.1.1.1, h.1.1.2, h.1.2, h.2⟩

theorem takeDigits_split (ds rest : List Char)
    (hds : ∀ c ∈ ds, isDigit c = true)
    (hrest : ∀ c, rest.head? = some c → isDigit c = false) :
    takeDigits (ds ++ rest) = (ds, rest) := by
  induction ds with
  | nil =>
    cases rest with
    | nil => rfl
    | cons c t =>
      show takeDigits (c :: t) = ([], c :: t)
      rw [takeDigits.eq_def]
      simp [hrest c rfl]
  | cons d ds' ih =>
    have he : takeDigits (ds' ++ rest) = (ds', rest) :=
      ih (fun c hc => hds c (by simp [hc]))
    rw [List.cons_append, takeDigits.eq_def]
    simp [hds d (by simp), he]

theorem parseNat_natChars (n : Nat) (rest : List Char)
    (h : numStopB rest = true) :
    parseNat (natChars n ++ rest) = some (n, rest) := by
  have hsplit : takeDigits (natChars n ++ rest) = (natChars n, rest) := by
    apply takeDigits_split _ _ (natChars_all_digits n)
    intro c hc
    cases rest with
    | nil => simp at hc
    | cons c' t =>
      simp only [List.head?_cons, Option.some.injEq] at hc
      rw [← hc]
      exact (numStopB_cons h).1
  rw [parseNat.eq_def, hsplit]
  simp only [natChars_ne_nil n, if_false]
  rw [if_neg (natChars_no_leading_zero n)]
  cases rest with
  | nil =>
    simp only []
    rw [digitsToNat_natChars]
  | cons c t =>
    obtain ⟨_, h46, h101, h69⟩ := numStopB_cons h
    have hcond : ¬(c = '.' ∨ c = 'e' ∨ c = 'E') := by
      intro hcon
      rcases hcon with he | he | he
      · rw [char_eq_iff_toNat, show ('.' : Char).toNat = 46 from rfl] at he
        exact h46 he
      · rw [char_eq_iff_toNat, show ('e' : Char).toNat = 101 from rfl] at he
        exact h101 he
      · rw [char_eq_iff_toNat, show ('E' : Char).toNat = 69 from rfl] at he
        exact h69 he
    simp only []
    rw [if_neg hcond, digitsToNat_natChars]

theorem natChars_head_digit (n : Nat) :
    ∃ c t, natChars n = c :: t ∧ isDigit c = true := by
  cases hc : natChars n with
  | nil => exact absurd hc (natChars_ne_nil n)
  | cons c t =>
    refine ⟨c, t, rfl, ?_⟩
    exact natChars_all_digits n c (by rw [hc]; simp)

theorem parseNumber_intChars (n : Int) (rest : List Char)
    (h : numStopB rest = true) :
    parseNumber (intChars n ++ rest) = some (n, rest) := by
  by_cases hn : n < 0
  · rw [intChars, if_pos hn]
    show parseNumber ('-' :: (natChars n.natAbs ++ rest)) = _
    rw [parseNumber.eq_def]
    simp only []
    rw [if_pos trivial]
    rw [parseNat_natChars _ _ h]
    simp only []
    rw [show -((n.natAbs : Nat) : Int) = n from by omega]
  · rw [intChars, if_neg hn]
    obtain ⟨c, t, hct, hdig⟩ := natChars_head_digit n.toNat
    rw [hct, List.cons_append, parseNumber.eq_def]
    have hne : ¬ c = '-' := by
      intro he
      rw [char_eq_iff_toNat, show ('-' : Char).toNat = 45 from rfl] at he
      simp only [isDigit, Bool.and_eq_true, decide_eq_true_eq] at hdig
      omega
    simp only []
    rw [if_neg hne]
    rw [show c :: (t ++ rest) = natChars n.toNat ++ rest by rw [hct, List.cons_append]]
    rw [parseNat_natChars _ _ h]
    simp only []
    rw [show ((n.toNat : Nat) : Int) = n from by omega]

/-! ## Parser helper lemmas for the round trip -/

theorem skipWs_cons_not_ws {c : Char} (h : isWs c = false) (X : List Char) :
    skipWs (c :: X) = c :: X := by
  simp [skipWs, h]

theorem parseVal_cons_ws {c : Char} (h : isWs c = true) (f : Nat) (X : List Char) :
    parseVal f (c :: X) = parseVal f X := by
  cases f with
  | zero => rfl
  | succ f =>
    simp only [parseVal]
    rw [show skipWs (c :: X) = skipWs X from by simp [skipWs, h]]

theorem isDigit_toNat {c : Char} (h : isDigit c = true) :
    48 ≤ c.toNat ∧ c.toNat ≤ 57 := by
  simpa [isDigit] using h

theorem isWs_false_of_toNat_ge {c : Char} (h : 33 ≤ c.toNat) : isWs c = false := by
  simp only [isWs, Bool.or_eq_false_iff, decide_eq_false_iff_not]
  omega

theorem char_ne_of_toNat {c d : Char} (h : c.toNat ≠ d.toNat) : ¬ c = d :=
  fun he => h (congrArg Char.toNat he)

theorem intChars_head (n : Int) :
    ∃ c t, intChars n = c :: t ∧ (c.toNat = 45 ∨ isDigit c = true) := by
  by_cases hn : n < 0
  · rw [intChars, if_pos hn]
    exact ⟨'-', _, rfl, Or.inl rfl⟩
  · rw [intChars, if_neg hn]
    obtain ⟨c, t, hct, hd⟩ := natChars_head_digit n.toNat
    exact ⟨c, t, hct, Or.inr hd⟩

/-- Every serialized value starts with a character that is not whitespace
and not a closing bracket. -/
theorem serChars_head (j : Json) :
    ∃ c t, serChars j = c :: t ∧ isWs c = false ∧ ¬ c = ']' := by
  cases j with
  | null => exact ⟨'n', _, rfl, by decide, by decide⟩
  | bool b =>
    cases b with
    | true => exact ⟨'t', _, rfl, by decide, by decide⟩
    | false => exact ⟨'f', _, rfl, by decide, by decide⟩
  | num n =>
    obtain ⟨c, t, hct, hc⟩ := intChars_head n
    refine ⟨c, t, by rw [show serChars (Json.num n) = intChars n from rfl, hct], ?_, ?_⟩
    · rcases hc with h45 | hdig
      · exact isWs_false_of_toNat_ge (by omega)
      · have := isDigit_toNat hdig
        exact isWs_false_of_toNat_ge (by omega)
    · rcases hc with h45 | hdig
      · exact char_ne_of_toNat (by rw [show (']' : Char).toNat = 93 from rfl]; omega)
      · have := isDigit_toNat hdig
        exact char_ne_of_toNat (by rw [show (']' : Char).toNat = 93 from rfl]; omega)
  | str s => exact ⟨'"', _, rfl, by decide, by decide⟩
  | arr xs =>
    cases xs with
    | nil => exact ⟨'[', _, rfl, by decide, by decide⟩
    | cons x xs => exact ⟨'[', _, rfl, by decide, by decide⟩
  | obj kvs =>
    cases kvs with
    | nil => exact ⟨'{', _, rfl, by decide, by decide⟩
    | cons kv kvs =>
      obtain ⟨k, v⟩ := kv
      exact ⟨'{', _, rfl, by decide, by decide⟩

/-! ## Fuel requirements of the parser -/

mutual

/-- Fuel sufficient for `parseVal` on the serialization of a value. -/
def jneed : Json → Nat
  | Json.null => 1
  | Json.bool _ => 1
  | Json.num _ => 1
  | Json.str _ => 1
  | Json.arr [] => 1
  | Json.arr (x :: xs) => 1 + jneed x + aneed xs
  | Json.obj [] => 1
  | Json.obj ((_, v) :: kvs) => 1 + jneed v + oneed kvs

/-- Fuel sufficient for `parseArrRest` on serialized remaining elements. -/
def aneed : List Json → Nat
  | [] => 1
  | x :: xs => 1 + jneed x + aneed xs

/-- Fuel sufficient for `parseObjRest` on serialized remaining members. -/
def oneed : List (String × Json) → Nat
  | [] => 1
  | (_, v) :: kvs => 1 + jneed v + oneed kvs

end

theorem jneed_pos (j : Json) : 1 ≤ jneed j := by
  cases j with
  | null => simp [jneed]
  | bool b => simp [jneed]
  | num n => simp [jneed]
  | str s => simp [jneed]
  | arr xs =>
    cases xs with
    | nil => simp [jneed]
    | cons x xs => simp only [jneed]; omega
  | obj kvs =>
    cases kvs with
    | nil => simp [jneed]
    | cons kv kvs =>
      obtain ⟨k, v⟩ := kv
      simp only [jneed]
      omega

theorem aneed_pos (xs : List Json) : 1 ≤ aneed xs := by
  cases xs with
  | nil => simp [aneed]
  | cons x xs => simp only [aneed]; omega

theorem oneed_pos (kvs : List (String × Json)) : 1 ≤ oneed kvs := by
  cases kvs with
  | nil => simp [oneed]
  | cons kv kvs =>
    obtain ⟨k, v⟩ := kv
    simp only [oneed]
    omega

/-- Constraint on the input following a serialized value: a numeral must
not be extended by what follows. -/
def followOk : Json → List Char → Prop
  | Json.num _, rest => numStopB rest = true
  | _, _ => True

theorem followOk_of_numStopB {j : Json} {rest : List Char}
    (h : numStopB rest = true) : followOk j rest := by
  cases j with
  | num n => exact h
  | null => trivial
  | bool b => trivial
  | str s => trivial
  | arr xs => trivial
  | obj kvs => trivial

theorem numStopB_serArrRest (xs : List Json) (rest : List Char) :
    numStopB (serArrRest xs ++ rest) = true := by
  cases xs with
  | nil => rfl
  | cons x xs => rfl

theorem numStopB_serObjRest (kvs : List (String × Json)) (rest : List Char) :
    numStopB (serObjRest kvs ++ rest) = true := by
  cases kvs with
  | nil => rfl
  | cons kv kvs =>
    obtain ⟨k, v⟩ := kv
    rfl

theorem parseVal_quote (f : Nat) (X : List Char) :
    parseVal (f + 1) ('"' :: X) =
      (match parseStr X with
       | some (s, r) => some (Json.str (String.mk s), r)
       | none => none) := rfl

theorem parseVal_objFirst (f : Nat) (Y : List Char) :
    parseVal (f + 1) ('{' :: '"' :: Y) =
      (match parseStr Y with
       | some (k, cs₃) =>
         (match skipWs cs₃ with
          | [] => none
          | e :: cs₄ =>
            if e = ':' then
              match parseVal f cs₄ with
              | some (v, cs₅) =>
                match parseObjRest f cs₅ with
                | some (kvs, rest) => some (Json.obj ((String.mk k, v) :: kvs), rest)
                | none => none
              | none => none
            else none)
       | none => none) := rfl

theorem parseVal_arrFirst (f : Nat) (Y : List Char) :
    parseVal (f + 1) ('[' :: Y) =
      (match skipWs Y with
       | [] => none
       | d :: cs₂ =>
          if d = ']' then some (Json.arr [], cs₂)
          else
            match parseVal f (d :: cs₂) with
            | some (v, cs₃) =>
              match parseArrRest f cs₃ with
              | some (vs, rest) => some (Json.arr (v :: vs), rest)
              | none => none
            | none => none) := rfl

theorem parseArrRest_comma (f : Nat) (X : List Char) :
    parseArrRest (f + 1) (',' :: X) =
      (match parseVal f X with
       | some (v, cs₂) =>
         match parseArrRest f cs₂ with
         | some (vs, rest) => some (v :: vs, rest)
         | none => none
       | none => none) := rfl

theorem parseObjRest_comma (f : Nat) (Y : List Char) :
    parseObjRest (f + 1) (',' :: ' ' :: '"' :: Y) =
      (match parseStr Y with
       | some (k, cs₃) =>
         (match skipWs cs₃ with
          | [] => none
          | e :: cs₄ =>
            if e = ':' then
              match parseVal f cs₄ with
              | some (v, cs₅) =>
                match parseObjRest f cs₅ with
                | some (kvs, rest) => some ((String.mk k, v) :: kvs, rest)
                | none => none
              | none => none
            else none)
       | none => none) := rfl

theorem parseVal_numHead (f : Nat) (c : Char) (X : List Char)
    (hws : isWs c = false) (h1 : ¬c = '{') (h2 : ¬c = '[') (h3 : ¬c = '"')
    (h4 : c = '-' ∨ isDigit c = true) :
    parseVal (f + 1) (c :: X) =
      (match parseNumber (c :: X) with
       | some (n, r) => some (Json.num n, r)
       | none => none) := by
  simp only [parseVal]
  rw [skipWs_cons_not_ws hws]
  simp only []
  rw [if_neg h1, if_neg h2, if_neg h3, if_pos h4]

/-- Round trip of the parser over the serializer: with enough fuel, parsing
the serialization of any value followed by any non-extending remainder
returns exactly that value and remainder; the same holds for the
element-list and member-list parsers. -/
theorem parse_ser_main (f : Nat) :
    (∀ (j : Json) (rest : List Char), jneed j ≤ f → followOk j rest →
      parseVal f (serChars j ++ rest) = some (j, rest)) ∧
    (∀ (xs : List Json) (rest : List Char), aneed xs ≤ f →
      parseArrRest f (serArrRest xs ++ rest) = some (xs, rest)) ∧
    (∀ (kvs : List (String × Json)) (rest : List Char), oneed kvs ≤ f →
      parseObjRest f (serObjRest kvs ++ rest) = some (kvs, rest)) := by
  induction f using Nat.strong_induction_on with
  | _ f ih =>
    refine ⟨?_, ?_, ?_⟩
    · intro j rest hneed hfollow
      cases f with
      | zero => exact absurd hneed (by have := jneed_pos j; omega)
      | succ f' =>
        cases j with
        | null => rfl
        | bool b => cases b with
          | true => rfl
          | false => rfl
        | num n =>
          obtain ⟨c, t, hct, hc⟩ := intChars_head n
          have hws : isWs c = false := by
            rcases hc with h45 | hdig
            · exact isWs_false_of_toNat_ge (by omega)
            · have := isDigit_toNat hdig
              exact isWs_false_of_toNat_ge (by omega)
          have htoNat : c.toNat = 45 ∨ (48 ≤ c.toNat ∧ c.toNat ≤ 57) := by
            rcases hc with h45 | hdig
            · exact Or.inl h45
            · exact Or.inr (isDigit_toNat hdig)
          have hs : serChars (Json.num n) ++ rest = c :: (t ++ rest) := by
            rw [show serChars (Json.num n) = intChars n from rfl, hct]
            rfl
          rw [hs]
          rw [parseVal_numHead f' c (t ++ rest) hws
            (char_ne_of_toNat (by rw [show ('{' : Char).toNat = 123 from rfl]; omega))
            (char_ne_of_toNat (by rw [show ('[' : Char).toNat = 91 from rfl]; omega))
            (char_ne_of_toNat (by rw [show ('"' : Char).toNat = 34 from rfl]; omega))
            (by
              rcases hc with h45 | hdig
              · exact Or.inl (by rw [char_eq_iff_toNat, h45]; rfl)
              · exact Or.inr hdig)]
          rw [show c :: (t ++ rest) = intChars n ++ rest from by rw [hct]; rfl]
          rw [parseNumber_intChars n rest hfollow]
        | str s =>
          have hs : serChars (Json.str s) ++ rest
              = '"' :: (escChars s.data ++ ('"' :: rest)) := by
            simp [serChars, List.append_assoc]
          rw [hs, parseVal_quote, parseStr_escChars s.data rest]
        | arr xs =>
          cases xs with
          | nil => rfl
          | cons x xs' =>
            have hneed' : jneed x ≤ f' ∧ aneed xs' ≤ f' := by
              simp only [jneed] at hneed
              omega
            obtain ⟨c, t, hct, hws, hne⟩ := serChars_head x
            have hs : serChars (Json.arr (x :: xs')) ++ rest
                = '[' :: (serChars x ++ (serArrRest xs' ++ rest)) := by
              simp [serChars, List.append_assoc]
            rw [hs, parseVal_arrFirst, hct, List.cons_append,
              skipWs_cons_not_ws hws]
            simp only []
            rw [if_neg hne, ← List.cons_append, ← hct]
            rw [(ih f' (by omega)).1 x (serArrRest xs' ++ rest) hneed'.1
              (followOk_of_numStopB (numStopB_serArrRest xs' rest))]
            simp only []
            rw [(ih f' (by omega)).2.1 xs' rest hneed'.2]
        | obj kvs =>
          cases kvs with
          | nil => rfl
          | cons kv kvs' =>
            obtain ⟨k, v⟩ := kv
            have hneed' : jneed v ≤ f' ∧ oneed kvs' ≤ f' := by
              simp only [jneed] at hneed
              omega
            have hs : serChars (Json.obj ((k, v) :: kvs')) ++ rest
                = '{' :: '"' :: (escChars k.data ++
                    ('"' :: ':' :: ' ' :: (serChars v ++ (serObjRest kvs' ++ rest)))) := by
              simp [serChars, List.append_assoc]
            rw [hs, parseVal_objFirst, parseStr_escChars k.data _]
            simp only []
            rw [skipWs_cons_not_ws (by decide)]
            simp only []
            rw [if_pos trivial]
            rw [parseVal_cons_ws (by decide) f']
            rw [(ih f' (by omega)).1 v (serObjRest kvs' ++ rest) hneed'.1
              (followOk_of_numStopB (numStopB_serObjRest kvs' rest))]
            simp only []
            rw [(ih f' (by omega)).2.2 kvs' rest hneed'.2]
    · intro xs rest hneed
      cases f with
      | zero => exact absurd hneed (by have := aneed_pos xs; omega)
      | succ f' =>
        cases xs with
        | nil => rfl
        | cons x xs' =>
          have hneed' : jneed x ≤ f' ∧ aneed xs' ≤ f' := by
            simp only [aneed] at hneed
            omega
          have hs : serArrRest (x :: xs') ++ rest
              = ',' :: (' ' :: (serChars x ++ (serArrRest xs' ++ rest))) := by
            simp [serArrRest, List.append_assoc]
          rw [hs, parseArrRest_comma]
          rw [parseVal_cons_ws (by decide) f']
          rw [(ih f' (by omega)).1 x (serArrRest xs' ++ rest) hneed'.1
            (followOk_of_numStopB (numStopB_serArrRest xs' rest))]
          simp only []
          rw [(ih f' (by omega)).2.1 xs' rest hneed'.2]
    · intro kvs rest hneed
      cases f with
      | zero => exact absurd hneed (by have := oneed_pos kvs; omega)
      | succ f' =>
        cases kvs with
        | nil => rfl
        | cons kv kvs' =>
          obtain ⟨k, v⟩ := kv
          have hneed' : jneed v ≤ f' ∧ oneed kvs' ≤ f' := by
            simp only [oneed] at hneed
            omega
          have hs : serObjRest ((k, v) :: kvs') ++ rest
              = ',' :: ' ' :: '"' :: (escChars k.data ++
                  ('"' :: ':' :: ' ' :: (serChars v ++ (serObjRest kvs' ++ rest)))) := by
            simp [serObjRest, List.append_assoc]
          rw [hs, parseObjRest_comma, parseStr_escChars k.data _]
          simp only []
          rw [skipWs_cons_not_ws (by decide)]
          simp only []
          rw [if_pos trivial]
          rw [parseVal_cons_ws (by decide) f']
          rw [(ih f' (by omega)).1 v (serObjRest kvs' ++ rest) hneed'.1
            (followOk_of_numStopB (numStopB_serObjRest kvs' rest))]
          simp only []
          rw [(ih f' (by omega)).2.2 kvs' rest hneed'.2]

/-- The fuel requirement never exceeds twice the serialized length. -/
theorem need_le_ser (M : Nat) :
    (∀ j : Json, sizeOf j ≤ M → jneed j ≤ 2 * (serChars j).length) ∧
    (∀ xs : List Json, sizeOf xs ≤ M → aneed xs ≤ 2 * (serArrRest xs).length) ∧
    (∀ kvs : List (String × Json), sizeOf kvs ≤ M →
      oneed kvs ≤ 2 * (serObjRest kvs).length) := by
  induction M using Nat.strong_induction_on with
  | _ M ih =>
    refine ⟨?_, ?_, ?_⟩
    · intro j hM
      cases j with
      | null => simp [jneed, serChars]
      | bool b => cases b <;> simp [jneed, serChars]
      | num n =>
        have hne : intChars n ≠ [] := by
          by_cases hn : n < 0
          · rw [intChars, if_pos hn]; simp
          · rw [intChars, if_neg hn]; exact natChars_ne_nil _
        have : 0 < (intChars n).length := List.length_pos.mpr hne
        simp only [jneed, show serChars (Json.num n) = intChars n from rfl]
        omega
      | str s =>
        simp only [jneed, serChars, List.length_cons]
        omega
      | arr xs =>
        cases xs with
        | nil => simp [jneed, serChars]
        | cons x xs =>
          have hx : sizeOf x < M := by
            have : sizeOf (Json.arr (x :: xs)) = 1 + (1 + sizeOf x + sizeOf xs) := by
              simp
            omega
          have hxs : sizeOf xs < M := by
            have : sizeOf (Json.arr (x :: xs)) = 1 + (1 + sizeOf x + sizeOf xs) := by
              simp
            have h1 : 1 ≤ sizeOf x := by cases x <;> simp
            omega
          have h1 := (ih (sizeOf x) hx).1 x le_rfl
          have h2 := (ih (sizeOf xs) hxs).2.1 xs le_rfl
          simp only [jneed, serChars, List.length_cons, List.length_append]
          omega
      | obj kvs =>
        cases kvs with
        | nil => simp [jneed, serChars]
        | cons kv kvs =>
          obtain ⟨k, v⟩ := kv
          have hv : sizeOf v < M := by
            have : sizeOf (Json.obj ((k, v) :: kvs))
                = 1 + (1 + (1 + sizeOf k + sizeOf v) + sizeOf kvs) := by simp
            omega
          have hkvs : sizeOf kvs < M := by
            have : sizeOf (Json.obj ((k, v) :: kvs))
                = 1 + (1 + (1 + sizeOf k + sizeOf v) + sizeOf kvs) := by simp
            have h1 : 1 ≤ sizeOf v := by cases v <;> simp
            omega
          have h1 := (ih (sizeOf v) hv).1 v le_rfl
          have h2 := (ih (sizeOf kvs) hkvs).2.2 kvs le_rfl
          simp only [jneed, serChars, List.length_cons, List.length_append]
          omega
    · intro xs hM
      cases xs with
      | nil => simp [aneed, serArrRest]
      | cons x xs =>
        have hx : sizeOf x < M := by
          have : sizeOf (x :: xs) = 1 + sizeOf x + sizeOf xs := by simp
          have h1 : 1 ≤ sizeOf xs := by cases xs <;> simp <;> omega
          omega
        have hxs : sizeOf xs < M := by
          have : sizeOf (x :: xs) = 1 + sizeOf x + sizeOf xs := by simp
          have h1 : 1 ≤ sizeOf x := by cases x <;> simp <;> omega
          omega
        have h1 := (ih (sizeOf x) hx).1 x le_rfl
        have h2 := (ih (sizeOf xs) hxs).2.1 xs le_rfl
        simp only [aneed, serArrRest, List.length_cons, List.length_append]
        omega
    · intro kvs hM
      cases kvs with
      | nil => simp [oneed, serObjRest]
      | cons kv kvs =>
        obtain ⟨k, v⟩ := kv
        have hv : sizeOf v < M := by
          have : sizeOf ((k, v) :: kvs) = 1 + (1 + sizeOf k + sizeOf v) + sizeOf kvs := by
            simp
          have h1 : 1 ≤ sizeOf kvs := by cases kvs <;> simp <;> omega
          omega
        have hkvs : sizeOf kvs < M := by
          have : sizeOf ((k, v) :: kvs) = 1 + (1 + sizeOf k + sizeOf v) + sizeOf kvs := by
            simp
          have h1 : 1 ≤ sizeOf v := by cases v <;> simp
          omega
        have h1 := (ih (sizeOf v) hv).1 v le_rfl
        have h2 := (ih (sizeOf kvs) hkvs).2.2 kvs le_rfl
        simp only [oneed, serObjRest, List.length_cons, List.length_append]
        omega

/-- Parsing the serialization of any value succeeds and returns the value:
the model of `json.loads` inverts the model of `json.dumps`. -/
theorem parseJson_dumps (j : Json) : parseJson (dumpsJson j) = some j := by
  rw [parseJson]
  rw [show (dumpsJson j).data = serChars j from rfl]
  have hneed : jneed j ≤ 2 * (serChars j).length + 2 := by
    have := (need_le_ser (sizeOf j)).1 j le_rfl
    omega
  have hrun := (parse_ser_main (2 * (serChars j).length + 2)).1 j []
    hneed (followOk_of_numStopB rfl)
  rw [List.append_nil] at hrun
  rw [hrun]
  rfl

/-! ## The extractor on serialized objects -/

theorem serObjRest_ne_nil (kvs : List (String × Json)) : serObjRest kvs ≠ [] := by
  cases kvs with
  | nil => simp [serObjRest]
  | cons kv kvs =>
    obtain ⟨k, v⟩ := kv
    simp [serObjRest]

theorem serObjRest_getLast (kvs : List (String × Json)) :
    (serObjRest kvs).getLast? = some '}' := by
  induction kvs with
  | nil => rfl
  | cons kv kvs ih =>
    obtain ⟨k, v⟩ := kv
    rw [show serObjRest ((k, v) :: kvs)
        = ([',', ' ', '"'] ++ escChars k.data ++ ['"', ':', ' '] ++ serChars v)
          ++ serObjRest kvs from by simp [serObjRest, List.append_assoc]]
    rw [List.getLast?_append_of_ne_nil _ (serObjRest_ne_nil kvs)]
    exact ih

theorem serChars_obj_getLast (kvs : List (String × Json)) :
    (serChars (Json.obj kvs)).getLast? = some '}' := by
  cases kvs with
  | nil => rfl
  | cons kv kvs =>
    obtain ⟨k, v⟩ := kv
    rw [show serChars (Json.obj ((k, v) :: kvs))
        = (['{', '"'] ++ escChars k.data ++ ['"', ':', ' '] ++ serChars v)
          ++ serObjRest kvs from by simp [serChars, List.append_assoc]]
    rw [List.getLast?_append_of_ne_nil _ (serObjRest_ne_nil kvs)]
    exact serObjRest_getLast kvs

theorem serChars_obj_head (kvs : List (String × Json)) :
    ∃ t, serChars (Json.obj kvs) = '{' :: t := by
  cases kvs with
  | nil => exact ⟨['}'], rfl⟩
  | cons kv kvs =>
    obtain ⟨k, v⟩ := kv
    exact ⟨_, rfl⟩

theorem pyRfindIdx_getLast {cs : List Char} {c : Char}
    (h : cs.getLast? = some c) : pyRfindIdx cs c = some (cs.length - 1) := by
  induction cs with
  | nil => simp at h
  | cons x xs ih =>
    cases xs with
    | nil =>
      simp only [List.getLast?_singleton, Option.some.injEq] at h
      rw [pyRfindIdx]
      rw [show pyRfindIdx [] c = none from rfl]
      simp only []
      rw [if_pos h]
      rfl
    | cons y ys =>
      rw [List.getLast?_cons_cons] at h
      rw [pyRfindIdx, ih h]
      simp only [List.length_cons, Option.some.injEq]
      omega

/-- The extractor applied to the serialization of any object recovers the
object: the first brace is at the start, the last brace is at the end, the
slice is the whole text, and the parse succeeds. -/
theorem parse_json_dumps_obj (kvs : List (String × Json)) :
    parse_json (dumpsJson (Json.obj kvs)) = Json.obj kvs := by
  obtain ⟨t, ht⟩ := serChars_obj_head kvs
  have hdata : (dumpsJson (Json.obj kvs)).data = serChars (Json.obj kvs) := rfl
  have hf : pyFindIdx (dumpsJson (Json.obj kvs)).data '{' = some 0 := by
    rw [hdata, ht]
    rfl
  have hr : pyRfindIdx (dumpsJson (Json.obj kvs)).data '}'
      = some ((serChars (Json.obj kvs)).length - 1) := by
    rw [hdata]
    exact pyRfindIdx_getLast (serChars_obj_getLast kvs)
  have hlen : 1 ≤ (serChars (Json.obj kvs)).length := by
    rw [ht]
    simp
  rw [parse_json_eq]
  rw [if_pos (by
    rw [pyFind_eq_some hf, pyRfind_eq_some hr]
    constructor
    · omega
    · omega)]
  have hslice : braceSlice (dumpsJson (Json.obj kvs)) = dumpsJson (Json.obj kvs) := by
    rw [braceSlice, pyFind_eq_some hf, pyRfind_eq_some hr, hdata]
    rw [show ((((serChars (Json.obj kvs)).length - 1 : Nat) : Int) + 1).toNat
        = (serChars (Json.obj kvs)).length from by omega]
    rw [show ((0 : Nat) : Int).toNat = 0 from rfl]
    rw [List.take_length, List.drop_zero]
    rfl
  rw [hslice, parseJson_dumps]

/-- C8: round-trip idempotence of the extractor: for a text that is itself
a valid JSON object, extracting, canonically re-serializing the result, and
extracting again yields an object equal to the first result. (The proof
shows this for every input text: the extractor always returns an object,
and re-extracting its serialization recovers it.) -/
theorem c8_extractor_idempotent (s : String) (kvs : List (String × Json))
    (_h : parseJson s = some (Json.obj kvs)) :
    parse_json (dumpsJson (parse_json s)) = parse_json s := by
  obtain ⟨okvs, hobj⟩ := parse_json_is_obj s
  rw [hobj, parse_json_dumps_obj]

/-- C8 witness: a concrete valid JSON object text round-trips through the
extractor and the serializer unchanged. -/
theorem c8_extractor_idempotent_witness :
    parse_json (dumpsJson (parse_json "\x7b\"a\": 1\x7d"))
      = parse_json "\x7b\"a\": 1\x7d" :=
  c8_extractor_idempotent "\x7b\"a\": 1\x7d" [("a", Json.num 1)] (by rfl)
